import Mathlib

/-!
Verification of the `studymanager` XML parser (`cs_studymanager_parser.py`)
and the solid-particle model accessors (`SolidModel.py`) of code_saturne.

The XML documents handled by `xml.dom.minidom` are embedded as a tree of
elements (tag, attribute list in document order, children) and text nodes.
Each Python method of the `Parser` class is translated to a Lean function;
paths where Python raises an exception or calls `sys.exit` return
`Except.error` carrying the kind of failure.
-/

/-- A `minidom` DOM node, as used by the studymanager parser: an element with
a tag name, an ordered attribute list copy of the `NamedNodeMap`, and ordered
children; or a text node with its character data. -/
inductive XNode where
  | elem (tag : String) (attrs : List (String × String)) (children : List XNode)
  | text (data : String)
  deriving Repr

/-- The failure modes of the Python code: `exit` models a printed diagnostic
followed by `sys.exit(1)`; the others model raised exceptions
(`node.attributes[k]` on a missing key raises `KeyError`, attribute access on
`None` or on an object lacking it raises `AttributeError`, a reference to an
undefined variable raises `NameError`). -/
inductive PyErr where
  | exit (msg : String)
  | valueError (msg : String)
  | keyError (k : String)
  | attributeError
  | nameError (x : String)
  deriving DecidableEq, Repr

/-- `node.attributes` (empty for a text node, which has none). -/
def XNode.attrs' : XNode → List (String × String)
  | .elem _ a _ => a
  | .text _ => []

/-- `node.childNodes`. -/
def XNode.childNodes : XNode → List XNode
  | .elem _ _ cs => cs
  | .text _ => []

/-- `node.nodeName`: the tag of an element, `"#text"` for a text node. -/
def XNode.nodeName : XNode → String
  | .elem t _ _ => t
  | .text _ => "#text"

/-- Is this node an element node (`nodeType == ELEMENT_NODE`)? -/
def XNode.isElem : XNode → Bool
  | .elem _ _ _ => true
  | .text _ => false

/-- Attribute lookup, `node.attributes[k].value` when present
(first binding wins; `minidom` keys are unique). -/
def lookupAttr (n : XNode) (k : String) : Option String :=
  List.lookup k n.attrs'

/-- `str(node.attributes[k].value)`: the value, or a `KeyError` if absent. -/
def attrValueE (n : XNode) (k : String) : Except PyErr String :=
  match lookupAttr n k with
  | some v => .ok v
  | none => .error (.keyError k)

/-- Self-inclusive document-order list of the elements with a given tag: the
node itself (when it is a matching element) followed by its matching
descendants, left to right. -/
def XNode.elemsByTag (tag : String) : XNode → List XNode
  | .text _ => []
  | .elem t a cc => (if t = tag then [XNode.elem t a cc] else []) ++ listElems cc
where listElems : List XNode → List XNode
  | [] => []
  | c :: cs => XNode.elemsByTag tag c ++ listElems cs

/-- `node.getElementsByTagName(tag)`: every descendant element (the node
itself excluded) whose tag matches, in document order. -/
def XNode.getElementsByTagName (n : XNode) (tag : String) : List XNode :=
  XNode.elemsByTag.listElems tag n.childNodes

/-- `Parser.__init__` root check (the `doc` is already parsed): reads
`doc.firstChild` as the root and exits unless its node name is
`studymanager`. -/
def loadTree (fname : String) (root : XNode) : Except PyErr XNode :=
  if root.nodeName ≠ "studymanager" then
    .error (.exit (fname ++ ": not a studymanager XML file."))
  else
    .ok root

/-- Loop body of `Parser.getStudiesLabel`, accumulating the labels kept so
far (`labels` in the Python code). -/
def getStudiesLabelAux : List XNode → List String → Except PyErr (List String)
  | [], acc => .ok acc
  | n :: ns, acc => do
      let label ← attrValueE n "label"
      let status ← attrValueE n "status"
      if status = "on" then
        if label ∈ acc then
          .error (.exit ("Several occurences of Study " ++ label ++
                         " in xml file of parameters"))
        else
          getStudiesLabelAux ns (acc ++ [label])
      else
        getStudiesLabelAux ns acc

/-- `Parser.getStudiesLabel`: labels of the `status='on'` studies in document
order; exits when an enabled label repeats. -/
def getStudiesLabel (root : XNode) : Except PyErr (List String) :=
  getStudiesLabelAux (root.getElementsByTagName "study") []

/-- Loop of `Parser.getStudyNode`.  The guard `if not n` in the source can
never fire (a DOM element is always truthy in Python), so a label with no
match falls through the loop and the initial `node = None` is returned. -/
def getStudyNodeAux (l : String) : List XNode → Except PyErr (Option XNode)
  | [] => .ok none
  | n :: ns => do
      let label ← attrValueE n "label"
      if label = l then do
        let status ← attrValueE n "status"
        if status ≠ "on" then
          .error (.valueError ("Error: the getStudyNode method is used with the study "
                               ++ l ++ " turned off "))
        else
          .ok (some n)
      else
        getStudyNodeAux l ns

/-- `Parser.getStudyNode`. -/
def getStudyNode (root : XNode) (l : String) : Except PyErr (Option XNode) :=
  getStudyNodeAux l (root.getElementsByTagName "study")

/-- The ASCII whitespace stripped by Python's `str.strip()` (the Unicode
space characters it also strips play no role in these documents). -/
def isPySpace (c : Char) : Bool :=
  c = ' ' || c = '\t' || c = '\n' || c = '\r' || c = '\x0b' || c = '\x0c'

/-- `str.strip()` on character lists. -/
def pyStrip (l : List Char) : List Char :=
  ((l.dropWhile isPySpace).reverse.dropWhile isPySpace).reverse

/-- `re.split(',', text)` on character lists: the comma-separated chunks, in
order, empty chunks included (`cur` accumulates the current chunk
reversed). -/
def splitCommaAux : List Char → List Char → List (List Char)
  | [], cur => [cur.reverse]
  | c :: rest, cur =>
      if c = ',' then cur.reverse :: splitCommaAux rest []
      else splitCommaAux rest (c :: cur)

/-- `[x.strip() for x in re.split(',', text)]`: split on commas and trim each
token; empty tokens are kept. -/
def splitStrip (text : String) : List String :=
  (splitCommaAux text.data []).map fun l => String.mk (pyStrip l)

/-- `Parser.getStudyTags`.  When the study is off, the Python error message
interpolates an undefined variable `l`, so a `NameError` is raised before the
`ValueError` is built. -/
def getStudyTags (studyNode : XNode) : Except PyErr (List String) := do
  let status ← attrValueE studyNode "status"
  if status ≠ "on" then
    .error (.nameError "l")
  else
    match lookupAttr studyNode "tags" with
    | some text => .ok (splitStrip text)
    | none => .ok []

/-- `node.firstChild.data`: the data of the first child when it is a text
node; `none` models the `AttributeError` on `None.data` or on an element
(which has no `.data`). -/
def firstChildData (n : XNode) : Option String :=
  match n.childNodes with
  | XNode.text s :: _ => some s
  | _ => none

/-- Loop of `Parser.getStudyKeywords`: nodes whose first child is not a text
node are skipped by the `except: continue`. -/
def getStudyKeywordsAux : List XNode → List String
  | [] => []
  | n :: ns =>
      (match firstChildData n with
       | some s => splitStrip s
       | none => []) ++ getStudyKeywordsAux ns

/-- `Parser.getStudyKeywords`. -/
def getStudyKeywords (studyNode : XNode) : List String :=
  getStudyKeywordsAux (studyNode.getElementsByTagName "study_keywords")

-- Sanity examples on concrete documents.
example :
    getStudiesLabel (.elem "studymanager" []
      [.elem "study" [("label", "S1"), ("status", "on")] [],
       .elem "study" [("label", "S2"), ("status", "off")] [],
       .elem "study" [("label", "S3"), ("status", "on")] []])
    = .ok ["S1", "S3"] := rfl

example :
    getStudiesLabel (.elem "studymanager" []
      [.elem "study" [("label", "S1"), ("status", "on")] [],
       .elem "study" [("label", "S1"), ("status", "on")] []])
    = .error (.exit "Several occurences of Study S1 in xml file of parameters") := rfl

example :
    getStudyNode (.elem "studymanager" []
      [.elem "study" [("label", "S1"), ("status", "on")] []]) "ZZ"
    = .ok none := rfl

example :
    getStudyTags (.elem "study" [("status", "on"), ("tags", "a, b ,c")] [])
    = .ok ["a", "b", "c"] := rfl

example :
    getStudyTags (.elem "study" [("status", "on"), ("tags", "a,,b")] [])
    = .ok ["a", "", "b"] := rfl

/-- Labels, in document order, of the `status='on'` nodes of a node list that
carry a `label` attribute. -/
def enabledLabelsOf (ns : List XNode) : List String :=
  (ns.filter (fun n => lookupAttr n "status" == some "on")).filterMap
    (fun n => lookupAttr n "label")

/-- Labels of the enabled `study` elements of a document, in document order. -/
def enabledStudyLabels (root : XNode) : List String :=
  enabledLabelsOf (root.getElementsByTagName "study")

lemma exceptBindOk {ε α β : Type} (a : α) (f : α → Except ε β) :
    (Except.ok (ε := ε) a >>= f) = f a := rfl

lemma enabledLabelsOf_cons_on {n : XNode} {ns : List XNode} {lab : String}
    (hlab : lookupAttr n "label" = some lab)
    (hst : lookupAttr n "status" = some "on") :
    enabledLabelsOf (n :: ns) = lab :: enabledLabelsOf ns := by
  simp [enabledLabelsOf, List.filter_cons, hst, List.filterMap_cons, hlab]

lemma enabledLabelsOf_cons_off {n : XNode} {ns : List XNode} {st : String}
    (hst : lookupAttr n "status" = some st) (hon : st ≠ "on") :
    enabledLabelsOf (n :: ns) = enabledLabelsOf ns := by
  simp [enabledLabelsOf, List.filter_cons, hst, hon]

lemma getStudiesLabelAux_ok (ns : List XNode) :
    ∀ acc : List String,
      (∀ n ∈ ns, (lookupAttr n "label").isSome ∧ (lookupAttr n "status").isSome) →
      (∀ lab ∈ enabledLabelsOf ns, lab ∉ acc) →
      (enabledLabelsOf ns).Nodup →
      getStudiesLabelAux ns acc = .ok (acc ++ enabledLabelsOf ns) := by
  induction ns with
  | nil => intro acc _ _ _; simp [getStudiesLabelAux, enabledLabelsOf]
  | cons n ns ih =>
      intro acc hattr hdisj hnd
      obtain ⟨hlab0, hst0⟩ := hattr n (by simp)
      obtain ⟨lab, hlab⟩ := Option.isSome_iff_exists.mp hlab0
      obtain ⟨st, hst⟩ := Option.isSome_iff_exists.mp hst0
      by_cases hon : st = "on"
      · subst hon
        rw [enabledLabelsOf_cons_on hlab hst] at hdisj hnd
        have hnotin : lab ∉ acc := hdisj lab (by simp)
        rw [getStudiesLabelAux, attrValueE, hlab, attrValueE, hst,
          exceptBindOk, exceptBindOk, if_pos rfl, if_neg hnotin,
          ih (acc ++ [lab])
            (fun m hm => hattr m (by simp [hm]))
            (fun l hl => by
              simp only [List.mem_append, List.mem_singleton]
              push_neg
              exact ⟨hdisj l (by simp [hl]), fun h => (List.nodup_cons.mp hnd).1 (h ▸ hl)⟩)
            (List.nodup_cons.mp hnd).2,
          enabledLabelsOf_cons_on hlab hst]
        simp
      · rw [enabledLabelsOf_cons_off hst hon] at hdisj hnd
        rw [getStudiesLabelAux, attrValueE, hlab, attrValueE, hst,
          exceptBindOk, exceptBindOk, if_neg hon,
          ih acc (fun m hm => hattr m (by simp [hm])) hdisj hnd,
          enabledLabelsOf_cons_off hst hon]

lemma getStudiesLabelAux_err (ns : List XNode) :
    ∀ acc : List String,
      (∀ n ∈ ns, (lookupAttr n "label").isSome ∧ (lookupAttr n "status").isSome) →
      acc.Nodup →
      ¬ (acc ++ enabledLabelsOf ns).Nodup →
      ∃ lab, getStudiesLabelAux ns acc
        = .error (.exit ("Several occurences of Study " ++ lab ++
                         " in xml file of parameters")) := by
  induction ns with
  | nil =>
      intro acc _ haccnd hnd
      exact absurd (by simpa [enabledLabelsOf] using haccnd) hnd
  | cons n ns ih =>
      intro acc hattr haccnd hnd
      obtain ⟨hlab0, hst0⟩ := hattr n (by simp)
      obtain ⟨lab, hlab⟩ := Option.isSome_iff_exists.mp hlab0
      obtain ⟨st, hst⟩ := Option.isSome_iff_exists.mp hst0
      by_cases hon : st = "on"
      · subst hon
        rw [enabledLabelsOf_cons_on hlab hst] at hnd
        by_cases hin : lab ∈ acc
        · refine ⟨lab, ?_⟩
          rw [getStudiesLabelAux, attrValueE, hlab, attrValueE, hst,
            exceptBindOk, exceptBindOk, if_pos rfl, if_pos hin]
        · rw [getStudiesLabelAux, attrValueE, hlab, attrValueE, hst,
            exceptBindOk, exceptBindOk, if_pos rfl, if_neg hin]
          refine ih (acc ++ [lab]) (fun m hm => hattr m (by simp [hm])) ?_ ?_
          · simpa [List.nodup_append] using ⟨haccnd, hin⟩
          · intro hcontra
            refine hnd ?_
            rw [List.append_cons]
            exact hcontra
      · rw [enabledLabelsOf_cons_off hst hon] at hnd
        rw [getStudiesLabelAux, attrValueE, hlab, attrValueE, hst,
          exceptBindOk, exceptBindOk, if_neg hon]
        exact ih acc (fun m hm => hattr m (by simp [hm])) haccnd hnd

/-- C3: `getStudiesLabel` returns, in document order, the label of every
study whose `status` is `on`, each exactly once; studies with any other
status are excluded; and a repeated enabled label makes it exit with the
duplicate-study diagnostic instead of returning. -/
theorem getStudiesLabel_spec (root : XNode)
    (hattr : ∀ n ∈ root.getElementsByTagName "study",
      (lookupAttr n "label").isSome ∧ (lookupAttr n "status").isSome) :
    ((enabledStudyLabels root).Nodup →
        getStudiesLabel root = .ok (enabledStudyLabels root)) ∧
    (¬ (enabledStudyLabels root).Nodup →
        ∃ lab, getStudiesLabel root
          = .error (.exit ("Several occurences of Study " ++ lab ++
                           " in xml file of parameters"))) := by
  constructor
  · intro hnd
    simpa using getStudiesLabelAux_ok (root.getElementsByTagName "study") [] hattr
      (by simp) hnd
  · intro hnd
    exact getStudiesLabelAux_err (root.getElementsByTagName "study") [] hattr
      (by simp) (by simpa [enabledStudyLabels] using hnd)

/-- Witness for C3 on a concrete document: `S2` is excluded (status `off`),
`S1` and `S3` are returned in order; and with a duplicated enabled label the
call exits. -/
theorem getStudiesLabel_spec_witness :
    getStudiesLabel (.elem "studymanager" []
      [.elem "study" [("label", "S1"), ("status", "on")] [],
       .elem "study" [("label", "S2"), ("status", "off")] [],
       .elem "study" [("label", "S3"), ("status", "on")] []]) = .ok ["S1", "S3"] ∧
    (∃ lab, getStudiesLabel (.elem "studymanager" []
      [.elem "study" [("label", "D"), ("status", "on")] [],
       .elem "study" [("label", "D"), ("status", "on")] []])
        = .error (.exit ("Several occurences of Study " ++ lab ++
                         " in xml file of parameters"))) := by
  constructor
  · exact (getStudiesLabel_spec _ (by decide)).1 (by decide)
  · exact (getStudiesLabel_spec _ (by decide)).2 (by decide)

/-- C2: loading a document whose root tag is not `studymanager` exits with
the not-a-studymanager diagnostic (no reader is produced), and a root tagged
`studymanager` passes the check. -/
theorem loadTree_root_check (fname : String) (root : XNode) :
    (root.nodeName ≠ "studymanager" →
      loadTree fname root
        = .error (.exit (fname ++ ": not a studymanager XML file."))) ∧
    (root.nodeName = "studymanager" → loadTree fname root = .ok root) := by
  constructor
  · intro h; simp [loadTree, h]
  · intro h; simp [loadTree, h]

/-- Witness for C2: a `<domain>` root is rejected, a `<studymanager>` root is
accepted. -/
theorem loadTree_root_check_witness :
    loadTree "f.xml" (.elem "domain" [] [])
      = .error (.exit "f.xml: not a studymanager XML file.") ∧
    loadTree "f.xml" (.elem "studymanager" [] [])
      = .ok (.elem "studymanager" [] []) := by
  refine ⟨?_, ?_⟩
  · exact (loadTree_root_check "f.xml" (.elem "domain" [] [])).1 (by decide)
  · exact (loadTree_root_check "f.xml" (.elem "studymanager" [] [])).2 rfl

/-- C4 counterexample: when no study carries the requested label,
`getStudyNode` does not fail — the `if not n` guard inside the loop never
fires on a DOM element, so the initial `node = None` is returned as a normal
result. -/
theorem getStudyNode_absent_returns_none :
    getStudyNode (.elem "studymanager" []
      [.elem "study" [("label", "S1"), ("status", "on")] []]) "ZZ" = .ok none ∧
    (getStudyNode (.elem "studymanager" []
      [.elem "study" [("label", "S1"), ("status", "on")] []]) "ZZ").isOk = true :=
  ⟨rfl, rfl⟩

/-- C4 as amended: `getStudyNode l` scans the studies in document order for
the first one labelled `l`; it returns that study when its status is `on`,
raises a `ValueError` when its status is anything else, and — contrary to the
claim — returns `None` without any error when no study carries label `l`. -/
lemma getStudyNodeAux_spec (l : String) (ns : List XNode)
    (hattr : ∀ n ∈ ns, (lookupAttr n "label").isSome ∧ (lookupAttr n "status").isSome) :
    (ns.find? (fun n => lookupAttr n "label" == some l) = none →
      getStudyNodeAux l ns = .ok none) ∧
    (∀ n, ns.find? (fun n => lookupAttr n "label" == some l) = some n →
      (lookupAttr n "status" = some "on" → getStudyNodeAux l ns = .ok (some n)) ∧
      (∀ st, lookupAttr n "status" = some st → st ≠ "on" →
        getStudyNodeAux l ns
          = .error (.valueError ("Error: the getStudyNode method is used with the study "
                                 ++ l ++ " turned off ")))) := by
  induction ns with
  | nil => exact ⟨fun _ => rfl, fun n h => Option.noConfusion h⟩
  | cons n ns ih =>
      obtain ⟨hlab0, _⟩ := hattr n (by simp)
      obtain ⟨lab, hlab⟩ := Option.isSome_iff_exists.mp hlab0
      have ihx := ih (fun m hm => hattr m (by simp [hm]))
      by_cases heq : lab = l
      · subst heq
        constructor
        · intro hnone
          rw [List.find?_cons_of_pos _ (by simp [hlab])] at hnone
          exact Option.noConfusion hnone
        · intro m hm
          rw [List.find?_cons_of_pos _ (by simp [hlab])] at hm
          obtain rfl : n = m := by injection hm
          constructor
          · intro hst
            rw [getStudyNodeAux, attrValueE, hlab, exceptBindOk, if_pos rfl,
              attrValueE, hst, exceptBindOk, if_neg (by simp)]
          · intro st hst hne
            rw [getStudyNodeAux, attrValueE, hlab, exceptBindOk, if_pos rfl,
              attrValueE, hst, exceptBindOk, if_pos (by simpa using hne)]
      · have hfind : (List.find? (fun n => lookupAttr n "label" == some l) (n :: ns))
            = List.find? (fun n => lookupAttr n "label" == some l) ns := by
          rw [List.find?_cons_of_neg _ (by simp [hlab, heq])]
        have hstep : getStudyNodeAux l (n :: ns) = getStudyNodeAux l ns := by
          rw [getStudyNodeAux, attrValueE, hlab, exceptBindOk, if_neg heq]
        rw [hfind, hstep]
        exact ihx

/-- C4 as amended: `getStudyNode l` scans the studies in document order for
the first one labelled `l`; it returns that study when its status is `on`,
raises a `ValueError` when its status is anything else, and — contrary to the
claim — returns `None` without any error when no study carries label `l`. -/
theorem getStudyNode_spec (root : XNode) (l : String)
    (hattr : ∀ n ∈ root.getElementsByTagName "study",
      (lookupAttr n "label").isSome ∧ (lookupAttr n "status").isSome) :
    ((root.getElementsByTagName "study").find?
        (fun n => lookupAttr n "label" == some l) = none →
      getStudyNode root l = .ok none) ∧
    (∀ n, (root.getElementsByTagName "study").find?
        (fun n => lookupAttr n "label" == some l) = some n →
      (lookupAttr n "status" = some "on" → getStudyNode root l = .ok (some n)) ∧
      (∀ st, lookupAttr n "status" = some st → st ≠ "on" →
        getStudyNode root l
          = .error (.valueError ("Error: the getStudyNode method is used with the study "
                                 ++ l ++ " turned off ")))) :=
  getStudyNodeAux_spec l (root.getElementsByTagName "study") hattr

/-- Witness for C4's amended theorem: the matching enabled study is returned,
and requesting a study that is off raises the ValueError. -/
theorem getStudyNode_spec_witness :
    getStudyNode (.elem "studymanager" []
      [.elem "study" [("label", "S1"), ("status", "on")] []]) "S1"
      = .ok (some (.elem "study" [("label", "S1"), ("status", "on")] [])) ∧
    getStudyNode (.elem "studymanager" []
      [.elem "study" [("label", "S2"), ("status", "off")] []]) "S2"
      = .error (.valueError
          "Error: the getStudyNode method is used with the study S2 turned off ") := by
  constructor
  · exact ((getStudyNode_spec (.elem "studymanager" []
      [.elem "study" [("label", "S1"), ("status", "on")] []]) "S1" (by decide)).2
        (.elem "study" [("label", "S1"), ("status", "on")] []) rfl).1 (by decide)
  · exact ((getStudyNode_spec (.elem "studymanager" []
      [.elem "study" [("label", "S2"), ("status", "off")] []]) "S2" (by decide)).2
        (.elem "study" [("label", "S2"), ("status", "off")] []) rfl).2
        "off" (by decide) (by decide)

/-- C5 counterexample: `getStudyTags` does not filter empty tokens — the
Python code is `[tag.strip() for tag in re.split(',', text)]` with no
emptiness filter — so `tags="a,,b"` yields `["a", "", "b"]`, not
`["a", "b"]`. -/
theorem getStudyTags_keeps_empty_tokens :
    getStudyTags (.elem "study" [("status", "on"), ("tags", "a,,b")] [])
      = .ok ["a", "", "b"] ∧
    ("" ∈ ["a", "", "b"]) ∧ ["a", "", "b"] ≠ ["a", "b"] :=
  ⟨rfl, by decide, by decide⟩

/-- C5 as amended: for an enabled study, `getStudyTags` splits the `tags`
attribute on commas into trimmed tokens in their original order (empty
tokens are kept, not filtered), a missing attribute yields `[]` and never an
error, and `getStudyKeywords` does the same over the text of the
`study_keywords` descendants (children with no leading text are skipped);
in particular `tags="a, b ,c"` yields `["a","b","c"]`. -/
theorem getStudyTags_spec (n : XNode)
    (hstatus : lookupAttr n "status" = some "on") :
    (∀ t, lookupAttr n "tags" = some t → getStudyTags n = .ok (splitStrip t)) ∧
    (lookupAttr n "tags" = none → getStudyTags n = .ok []) ∧
    (getStudyKeywords n = (n.getElementsByTagName "study_keywords").flatMap
        (fun k => (firstChildData k).elim [] splitStrip)) ∧
    splitStrip "a, b ,c" = ["a", "b", "c"] := by
  refine ⟨?_, ?_, ?_, by decide⟩
  · intro t ht
    rw [getStudyTags, attrValueE, hstatus, exceptBindOk, if_neg (by simp), ht]
  · intro ht
    rw [getStudyTags, attrValueE, hstatus, exceptBindOk, if_neg (by simp), ht]
  · rw [getStudyKeywords]
    induction n.getElementsByTagName "study_keywords" with
    | nil => rfl
    | cons k ks ih =>
        rw [getStudyKeywordsAux, ih, List.flatMap_cons]
        cases firstChildData k <;> rfl

/-- Witness for C5's amended theorem at a concrete enabled study. -/
theorem getStudyTags_spec_witness :
    getStudyTags (.elem "study" [("status", "on"), ("tags", "a, b ,c")] [])
      = .ok ["a", "b", "c"] ∧
    getStudyTags (.elem "study" [("status", "on")] []) = .ok [] := by
  constructor
  · have h := (getStudyTags_spec (.elem "study" [("status", "on"), ("tags", "a, b ,c")] [])
      (by decide)).1 "a, b ,c" (by decide)
    rw [h, show splitStrip "a, b ,c" = ["a", "b", "c"] from by decide]
  · exact (getStudyTags_spec (.elem "study" [("status", "on")] [])
      (by decide)).2.1 (by decide)

/-- Decimal value of a digit list (most significant first). -/
def digitsVal (l : List Char) : Nat :=
  l.foldl (fun a c => a * 10 + (c.toNat - '0'.toNat)) 0

/-- Exponent digits of a float literal: all remaining characters must be
digits and there must be at least one. -/
def expDigits (d : List Char) : Option Nat :=
  if d ≠ [] ∧ d.all Char.isDigit then some (digitsVal d) else none

/-- The optional exponent suffix of a Python float literal (empty, or
`e`/`E` followed by an optionally signed digit string). -/
def parseExpPart : List Char → Option Int
  | [] => some 0
  | c :: r =>
      if c = 'e' ∨ c = 'E' then
        match r with
        | '+' :: d => (expDigits d).map Int.ofNat
        | '-' :: d => (expDigits d).map (fun n => -(n : Int))
        | d => (expDigits d).map Int.ofNat
      else none

/-- The exact rational `m * 10 ^ e` of a decimal mantissa and a signed
exponent (built with `Rat.divInt` so that it evaluates by kernel
reduction). -/
def decToRat (m : Nat) (e : Int) : ℚ :=
  if 0 ≤ e then Rat.divInt (m * 10 ^ e.toNat) 1 else Rat.divInt m (10 ^ (-e).toNat)

/-- Magnitude part of `float(s)`: digits, optional fraction, optional
exponent.  The value is the dot-less digit string scaled by ten to the
exponent minus the fraction length. -/
def pyFloatMag (l : List Char) : Option ℚ :=
  let ip := l.takeWhile Char.isDigit
  let rest := l.dropWhile Char.isDigit
  match rest with
  | '.' :: r2 =>
      let fp := r2.takeWhile Char.isDigit
      let r3 := r2.dropWhile Char.isDigit
      if ip = [] ∧ fp = [] then none
      else (parseExpPart r3).map
        (fun ex => decToRat (digitsVal (ip ++ fp)) (ex - fp.length))
  | r3 =>
      if ip = [] then none
      else (parseExpPart r3).map (fun ex => decToRat (digitsVal ip) ex)

/-- Python `float(s)` on finite decimal literals, with the exact rational
value (IEEE-754 rounding is not modelled, nor are `inf`/`nan` and digit
underscores, which do not occur in these documents); `none` models the
`ValueError` on malformed content. -/
def pyFloatL (l : List Char) : Option ℚ :=
  match pyStrip l with
  | '+' :: r => pyFloatMag r
  | '-' :: r => (pyFloatMag r).map Neg.neg
  | r => pyFloatMag r

/-- `Parser.getAttribute`: the attribute value, else the default, else a
`ValueError` (passing `default=None` explicitly behaves like omitting it). -/
def getAttribute (node : XNode) (k : String) (default : Option String) :
    Except PyErr String :=
  match lookupAttr node k with
  | some v => .ok v
  | none =>
      match default with
      | some d => .ok d
      | none => .error (.valueError ("Error: attribute " ++ k ++ " is mandatory!"))

/-- `tuple(float(s) for s in v[1:-1].split(','))`: first and last character
dropped, comma split, each part parsed as a float; a malformed part raises
`ValueError`. -/
def tupleOfValue (v : String) : Except PyErr (List ℚ) :=
  ((splitCommaAux ((v.data.drop 1).dropLast) []).mapM pyFloatL).elim
    (.error (.valueError "could not convert string to float")) .ok

/-- `Parser.getAttributeTuple`: parses a present value as a float tuple; on
an absent key it behaves like `getAttribute`. -/
def getAttributeTuple (node : XNode) (k : String) (default : Option (List ℚ)) :
    Except PyErr (List ℚ) :=
  match lookupAttr node k with
  | some v => tupleOfValue v
  | none =>
      match default with
      | some d => .ok d
      | none => .error (.valueError ("Error: attribute " ++ k ++ " is mandatory!"))

lemma splitCommaAux_no_comma (a : List Char) :
    ∀ cur, ',' ∉ a → splitCommaAux a cur = [cur.reverse ++ a] := by
  induction a with
  | nil => intro cur _; simp [splitCommaAux]
  | cons c r ih =>
      intro cur hc
      have hcne : c ≠ ',' := fun h => hc (by simp [h])
      rw [splitCommaAux, if_neg hcne, ih (c :: cur) (fun h => hc (by simp [h]))]
      simp

lemma splitCommaAux_comma (a : List Char) :
    ∀ cur rest, ',' ∉ a →
      splitCommaAux (a ++ ',' :: rest) cur
        = (cur.reverse ++ a) :: splitCommaAux rest [] := by
  induction a with
  | nil => intro cur rest _; simp [splitCommaAux]
  | cons c r ih =>
      intro cur rest hc
      have hcne : c ≠ ',' := fun h => hc (by simp [h])
      rw [List.cons_append, splitCommaAux, if_neg hcne,
        ih (c :: cur) rest (fun h => hc (by simp [h]))]
      simp

example : pyFloatL "1.0".data = some 1 := by decide
example : pyFloatL "2.5".data = some (Rat.divInt 5 2) := by decide
example : pyFloatL " -3.5e1".data = some (-35) := by decide
example : pyFloatL "xx".data = none := by decide

/-- C8: `getAttribute` returns the attribute value when present, the given
default when absent, and a mandatory-attribute `ValueError` when absent with
no default; `getAttributeTuple` behaves the same on absence, and on a
present value of the form `(a,b,c)` returns the three parsed floats — with a
`ValueError` when a component is malformed. -/
theorem getAttribute_spec :
    (∀ (node : XNode) (k : String) (d : Option String) (v : String),
        lookupAttr node k = some v → getAttribute node k d = .ok v) ∧
    (∀ (node : XNode) (k dv : String), lookupAttr node k = none →
        getAttribute node k (some dv) = .ok dv) ∧
    (∀ (node : XNode) (k : String), lookupAttr node k = none →
        getAttribute node k none
          = .error (.valueError ("Error: attribute " ++ k ++ " is mandatory!"))) ∧
    (∀ (node : XNode) (k : String) (dq : List ℚ), lookupAttr node k = none →
        getAttributeTuple node k (some dq) = .ok dq) ∧
    (∀ (node : XNode) (k : String), lookupAttr node k = none →
        getAttributeTuple node k none
          = .error (.valueError ("Error: attribute " ++ k ++ " is mandatory!"))) ∧
    (∀ (node : XNode) (k : String) (d : Option (List ℚ))
        (p1 p2 p3 : String) (q1 q2 q3 : ℚ),
        lookupAttr node k = some ("(" ++ p1 ++ "," ++ p2 ++ "," ++ p3 ++ ")") →
        ',' ∉ p1.data → ',' ∉ p2.data → ',' ∉ p3.data →
        pyFloatL p1.data = some q1 → pyFloatL p2.data = some q2 →
        pyFloatL p3.data = some q3 →
        getAttributeTuple node k d = .ok [q1, q2, q3]) ∧
    (∀ (node : XNode) (k : String) (d : Option (List ℚ)),
        lookupAttr node k = some "(1.0,xx)" →
        getAttributeTuple node k d
          = .error (.valueError "could not convert string to float")) := by
  refine ⟨?_, ?_, ?_, ?_, ?_, ?_, ?_⟩
  · intro node k d v hv; rw [getAttribute.eq_def, hv]
  · intro node k dv hv; rw [getAttribute.eq_def, hv]
  · intro node k hv; rw [getAttribute.eq_def, hv]
  · intro node k dq hv; rw [getAttributeTuple.eq_def, hv]
  · intro node k hv; rw [getAttributeTuple.eq_def, hv]
  · intro node k d p1 p2 p3 q1 q2 q3 hv h1 h2 h3 hq1 hq2 hq3
    rw [getAttributeTuple.eq_def, hv]
    show tupleOfValue ("(" ++ p1 ++ "," ++ p2 ++ "," ++ p3 ++ ")") = .ok [q1, q2, q3]
    have hdata : ("(" ++ p1 ++ "," ++ p2 ++ "," ++ p3 ++ ")").data
        = '(' :: (p1.data ++ ',' :: (p2.data ++ ',' :: (p3.data ++ [')']))) := by
      simp [String.data_append]
    have hbody : ((("(" ++ p1 ++ "," ++ p2 ++ "," ++ p3 ++ ")").data.drop 1).dropLast)
        = p1.data ++ ',' :: (p2.data ++ ',' :: p3.data) := by
      rw [hdata]
      show (p1.data ++ ',' :: (p2.data ++ ',' :: (p3.data ++ [')']))).dropLast
          = p1.data ++ ',' :: (p2.data ++ ',' :: p3.data)
      rw [show p1.data ++ ',' :: (p2.data ++ ',' :: (p3.data ++ [')']))
            = (p1.data ++ ',' :: (p2.data ++ ',' :: p3.data)) ++ [')'] from by simp,
        List.dropLast_concat]
    rw [tupleOfValue, hbody, splitCommaAux_comma p1.data [] _ h1,
      splitCommaAux_comma p2.data [] _ h2, splitCommaAux_no_comma p3.data [] h3]
    simp [List.mapM_cons, List.mapM.loop, hq1, hq2, hq3, Option.elim]
  · intro node k d hv
    rw [getAttributeTuple.eq_def, hv]
    exact rfl

/-- Witness for C8 on concrete nodes: present key, absent key with and
without a default, a well-formed tuple, and a malformed tuple. -/
theorem getAttribute_spec_witness :
    getAttribute (.elem "p" [("opt", "x")] []) "opt" none = .ok "x" ∧
    getAttribute (.elem "p" [("opt", "x")] []) "zz" (some "d") = .ok "d" ∧
    getAttribute (.elem "p" [("opt", "x")] []) "zz" none
      = .error (.valueError "Error: attribute zz is mandatory!") ∧
    getAttributeTuple (.elem "p" [("opt", "x")] []) "zz" (some [7]) = .ok [7] ∧
    getAttributeTuple (.elem "p" [("opt", "x")] []) "zz" none
      = .error (.valueError "Error: attribute zz is mandatory!") ∧
    getAttributeTuple (.elem "p" [("pos", "(1.0,2.5,3.0)")] []) "pos" none
      = .ok [1, Rat.divInt 5 2, 3] ∧
    getAttributeTuple (.elem "p" [("pos", "(1.0,xx)")] []) "pos" none
      = .error (.valueError "could not convert string to float") := by
  refine ⟨?_, ?_, ?_, ?_, ?_, ?_, ?_⟩
  · exact getAttribute_spec.1 _ "opt" none "x" rfl
  · exact getAttribute_spec.2.1 _ "zz" "d" rfl
  · exact getAttribute_spec.2.2.1 _ "zz" rfl
  · exact getAttribute_spec.2.2.2.1 _ "zz" [7] rfl
  · exact getAttribute_spec.2.2.2.2.1 _ "zz" rfl
  · exact getAttribute_spec.2.2.2.2.2.1 _ "pos" none "1.0" "2.5" "3.0" 1 (Rat.divInt 5 2) 3
      rfl (by decide) (by decide) (by decide) (by decide) (by decide) (by decide)
  · exact getAttribute_spec.2.2.2.2.2.2 _ "pos" none rfl

/-- Modelled from the spec: the XML engine collaborators of `SolidModel`
(`XMLengine.xmlSetData`, `xmlGetString`, from `code_saturne.model.XMLengine`,
which is not part of this fragment).  A node is an association list from
child-markup names to their text data; `xmlSetData` stores a value under a
markup name, creating the child if needed. -/
def xmlSetData : List (String × String) → String → String → List (String × String)
  | [], k, v => [(k, v)]
  | (k', v') :: r, k, v =>
      if k' = k then (k, v) :: r else (k', v') :: xmlSetData r k v

/-- Modelled from the spec: `XMLengine.xmlGetString` returns the text data
stored under a markup name, or the empty string when the markup is
absent. -/
def xmlGetString (node : List (String × String)) (k : String) : String :=
  (List.lookup k node).getD ""

/-- The mutable state of a `SolidModel` touched by the coupling-status
accessors: `ipp_node` is the `solid_particles_properties` node, `None` until
initialised. -/
structure SolidState where
  ipp_node : Option (List (String × String))
  deriving Repr

/-- `defaultValues()['polydispersed']` in `SolidModel.defaultValues`. -/
def solidDefaultPolydispersed : String := "off"

/-- The markup name written by `SolidModel.setCouplingStatus`
(`SolidModel.py` line 258). -/
def setCouplingKey : String := "polydispersion"

/-- The markup name read by `SolidModel.getCouplingStatus`
(`SolidModel.py` line 268). -/
def getCouplingKey : String := "polydiserpsion"

/-- Modelled from the spec: `Model.isOnOff` (from
`code_saturne.model.XMLvariables`, not in this fragment) raises unless the
status is `on` or `off`. -/
def isOnOff (status : String) : Except PyErr Unit :=
  if status = "on" ∨ status = "off" then .ok ()
  else .error (.valueError ("invalid status " ++ status))

/-- `SolidModel.setCouplingStatus`: after the `isOnOff` check, initialises
`ipp_node` if needed and stores the status under `polydispersion`. -/
def setCouplingStatus (st : SolidState) (status : String) :
    Except PyErr SolidState := do
  let _ ← isOnOff status
  let node := st.ipp_node.getD []
  .ok { ipp_node := some (xmlSetData node setCouplingKey status) }

/-- `SolidModel.getCouplingStatus`: the default when `ipp_node` is unset,
else the string stored under `polydiserpsion`. -/
def getCouplingStatus (st : SolidState) : String :=
  match st.ipp_node with
  | none => solidDefaultPolydispersed
  | some node => xmlGetString node getCouplingKey

lemma exceptBindErr {ε α β : Type} (e : ε) (f : α → Except ε β) :
    (Except.error (α := α) e >>= f) = .error e := rfl

lemma lookup_xmlSetData_ne (node : List (String × String)) (k k' v : String)
    (h : k ≠ k') : List.lookup k (xmlSetData node k' v) = List.lookup k node := by
  have hb : (k == k') = false := beq_eq_false_iff_ne.mpr h
  induction node with
  | nil => simp [xmlSetData, List.lookup, hb]
  | cons p r ih =>
      obtain ⟨pk, pv⟩ := p
      by_cases hpk : pk = k'
      · subst hpk
        simp only [xmlSetData, if_pos rfl]
        simp [List.lookup, hb]
      · simp only [xmlSetData, if_neg hpk]
        simp only [List.lookup, ih]

/-- C10: `getCouplingStatus` reads markup `polydiserpsion` while
`setCouplingStatus` writes markup `polydispersion`, so the two accessors use
different keys, and reading immediately after `setCouplingStatus(s)`
never sees the key just written: the result is whatever was stored under the
misspelled key before the call, independent of `s`. -/
theorem couplingStatus_key_mismatch :
    setCouplingKey ≠ getCouplingKey ∧
    (∀ (st : SolidState) (s : String) (st' : SolidState),
      setCouplingStatus st s = .ok st' →
      getCouplingStatus st'
        = (List.lookup getCouplingKey (st.ipp_node.getD [])).getD "") := by
  constructor
  · decide
  · intro st s st' hset
    cases hiso : isOnOff s with
    | error e =>
        rw [setCouplingStatus, hiso, exceptBindErr] at hset
        exact Except.noConfusion hset
    | ok u =>
        rw [setCouplingStatus, hiso, exceptBindOk] at hset
        have hon : st' = ⟨some (xmlSetData (st.ipp_node.getD []) setCouplingKey s)⟩ := by
          injection hset with h1
          exact h1.symm
        subst hon
        show xmlGetString (xmlSetData (st.ipp_node.getD []) setCouplingKey s) getCouplingKey
            = (List.lookup getCouplingKey (st.ipp_node.getD [])).getD ""
        rw [xmlGetString, lookup_xmlSetData_ne _ _ _ _ (by decide)]

/-- Witness for C10: on a fresh state, `set('on')` then `get` returns the
empty string, not the value just written. -/
theorem couplingStatus_key_mismatch_witness :
    setCouplingStatus ⟨none⟩ "on"
      = .ok ⟨some [("polydispersion", "on")]⟩ ∧
    getCouplingStatus ⟨some [("polydispersion", "on")]⟩ = "" ∧
    ("" : String) ≠ "on" := by
  refine ⟨rfl, ?_, by decide⟩
  have h := couplingStatus_key_mismatch.2 ⟨none⟩ "on" ⟨some [("polydispersion", "on")]⟩ rfl
  simpa using h

/-- The append-then-pop filter of `Parser.getStatusOnCasesLabels`: a label
just appended is popped again when an attribute name was supplied (and
non-empty, `if attr` being false on `\x7b''\x7d`-like empty strings) and that
attribute's value is not `on`; reading `node.attributes[attr]` on a case
lacking it raises `KeyError`.  `popCheck` returns whether the label
survives. -/
def popCheck (node : XNode) : Option String → Except PyErr Bool
  | some a =>
      if a = "" then .ok true
      else (attrValueE node a) >>= fun v => .ok (v == "on")
  | none => .ok true

/-- Loop of `Parser.getStatusOnCasesLabels`. -/
def getStatusOnCasesLabelsAux (attr : Option String) :
    List XNode → List String → Except PyErr (List String)
  | [], acc => .ok acc
  | node :: ns, acc => do
      let status ← attrValueE node "status"
      if status = "on" then do
        let label ← attrValueE node "label"
        let keep ← popCheck node attr
        if keep then getStatusOnCasesLabelsAux attr ns (acc ++ [label])
        else getStatusOnCasesLabelsAux attr ns acc
      else getStatusOnCasesLabelsAux attr ns acc

/-- `Parser.getStatusOnCasesLabels`: iterates the cases of
`getStudyNode(l)`; when that returned `None`, calling
`.getElementsByTagName` on it raises `AttributeError`. -/
def getStatusOnCasesLabels (root : XNode) (l : String) (attr : Option String) :
    Except PyErr (List String) :=
  getStudyNode root l >>= fun sn? =>
    match sn? with
    | none => .error .attributeError
    | some sn => getStatusOnCasesLabelsAux attr (sn.getElementsByTagName "case") []

/-- Does this case survive the status filter and (when supplied, non-empty,
and present on the case) the extra-attribute filter? -/
def caseKept (attr : Option String) (n : XNode) : Bool :=
  (lookupAttr n "status" == some "on") &&
  (match attr with
   | some a => if a = "" then true else lookupAttr n a == some "on"
   | none => true)

/-- Labels, in document order, of the cases kept by `caseKept`. -/
def keptCaseLabels (attr : Option String) (cases : List XNode) : List String :=
  (cases.filter (caseKept attr)).filterMap (fun n => lookupAttr n "label")

/-- C9 counterexample: a `status='on'` case lacking the supplied attribute
is not excluded — the lookup `node.attributes['xx']` raises `KeyError`
and the call fails instead of returning a list. -/
theorem getStatusOnCasesLabels_missing_attr_raises :
    getStatusOnCasesLabels
      (.elem "studymanager" []
        [.elem "study" [("label", "S"), ("status", "on")]
          [.elem "case" [("label", "C1"), ("status", "on")] []]])
      "S" (some "xx")
      = .error (.keyError "xx") := rfl

lemma getStatusOnCasesLabelsAux_ok (attr : Option String) (cases : List XNode) :
    ∀ acc : List String,
      (∀ n ∈ cases, (lookupAttr n "status").isSome ∧
        (lookupAttr n "status" = some "on" →
          (lookupAttr n "label").isSome ∧
          (∀ a, attr = some a → a ≠ "" → (lookupAttr n a).isSome))) →
      getStatusOnCasesLabelsAux attr cases acc
        = .ok (acc ++ keptCaseLabels attr cases) := by
  induction cases with
  | nil => intro acc _; simp [getStatusOnCasesLabelsAux, keptCaseLabels]
  | cons n ns ih =>
      intro acc hattr
      obtain ⟨hst0, hon0⟩ := hattr n (by simp)
      obtain ⟨st, hst⟩ := Option.isSome_iff_exists.mp hst0
      have ihx := fun acc2 => ih acc2 (fun m hm => hattr m (by simp [hm]))
      by_cases hon : st = "on"
      · subst hon
        obtain ⟨hlab0, hextra⟩ := hon0 hst
        obtain ⟨lab, hlab⟩ := Option.isSome_iff_exists.mp hlab0
        have hkeep : ∃ b, popCheck n attr = .ok b ∧
            (caseKept attr n = b) := by
          match attr with
          | none => exact ⟨true, rfl, by simp [caseKept, hst]⟩
          | some a =>
              by_cases ha : a = ""
              · subst ha
                exact ⟨true, by rw [popCheck, if_pos rfl], by simp [caseKept, hst]⟩
              · obtain ⟨v, hv⟩ := Option.isSome_iff_exists.mp (hextra a rfl ha)
                refine ⟨v == "on", ?_, ?_⟩
                · rw [popCheck, if_neg ha, attrValueE, hv, exceptBindOk]
                · simp [caseKept, hst, ha, hv]
        obtain ⟨b, hpc, hcb⟩ := hkeep
        have hkept : keptCaseLabels attr (n :: ns)
            = (if b then [lab] else []) ++ keptCaseLabels attr ns := by
          rw [keptCaseLabels, List.filter_cons, hcb]
          cases b
          · simp [keptCaseLabels]
          · simp [keptCaseLabels, List.filterMap_cons, hlab]
        rw [getStatusOnCasesLabelsAux, attrValueE, hst, exceptBindOk, if_pos rfl,
          attrValueE, hlab, exceptBindOk, hpc, exceptBindOk, hkept]
        cases b
        · rw [if_neg (by simp), ihx acc]
          simp
        · rw [if_pos rfl, ihx (acc ++ [lab])]
          simp
      · have hkept : keptCaseLabels attr (n :: ns) = keptCaseLabels attr ns := by
          simp [keptCaseLabels, caseKept, List.filter_cons, hst, hon]
        rw [getStatusOnCasesLabelsAux, attrValueE, hst, exceptBindOk, if_neg hon,
          ihx acc, hkept]

/-- C9 as amended: `getStatusOnCasesLabels(l, attr)` returns, in document
order, the labels of the `status='on'` cases of study `l`; when a non-empty
attribute name is supplied, a case is kept only if it carries that attribute
with value `on` — provided every enabled case carries the named attribute (a
case lacking it makes the call raise a `KeyError` instead of being
excluded). -/
theorem getStatusOnCasesLabels_spec (root : XNode) (l : String)
    (attr : Option String) (sn : XNode)
    (hsn : getStudyNode root l = .ok (some sn))
    (hattr : ∀ n ∈ sn.getElementsByTagName "case",
      (lookupAttr n "status").isSome ∧
      (lookupAttr n "status" = some "on" →
        (lookupAttr n "label").isSome ∧
        (∀ a, attr = some a → a ≠ "" → (lookupAttr n a).isSome))) :
    getStatusOnCasesLabels root l attr
      = .ok (keptCaseLabels attr (sn.getElementsByTagName "case")) := by
  rw [getStatusOnCasesLabels, hsn, exceptBindOk]
  show getStatusOnCasesLabelsAux attr (sn.getElementsByTagName "case") []
      = .ok (keptCaseLabels attr (sn.getElementsByTagName "case"))
  rw [getStatusOnCasesLabelsAux_ok attr _ [] hattr]
  simp

/-- Witness for C9's amended theorem: with `attr='post'`, a case with
`post='on'` is kept, one with `post='off'` is dropped, one with status
`off` is dropped. -/
theorem getStatusOnCasesLabels_spec_witness :
    getStatusOnCasesLabels
      (.elem "studymanager" []
        [.elem "study" [("label", "S"), ("status", "on")]
          [.elem "case" [("label", "A"), ("status", "on"), ("post", "on")] [],
           .elem "case" [("label", "B"), ("status", "on"), ("post", "off")] [],
           .elem "case" [("label", "C"), ("status", "off")] []]])
      "S" (some "post") = .ok ["A"] := by
  have h := getStatusOnCasesLabels_spec
    (.elem "studymanager" []
      [.elem "study" [("label", "S"), ("status", "on")]
        [.elem "case" [("label", "A"), ("status", "on"), ("post", "on")] [],
         .elem "case" [("label", "B"), ("status", "on"), ("post", "off")] [],
         .elem "case" [("label", "C"), ("status", "off")] []]])
    "S" (some "post")
    (.elem "study" [("label", "S"), ("status", "on")]
      [.elem "case" [("label", "A"), ("status", "on"), ("post", "on")] [],
       .elem "case" [("label", "B"), ("status", "on"), ("post", "off")] [],
       .elem "case" [("label", "C"), ("status", "off")] []])
    rfl (by decide)
  rw [h]
  rfl

/-- A Python value stored in the per-case dictionary built by
`getStatusOnCasesKeywords`: `None`, a string, an int, a list of strings, or
a DOM node. -/
inductive PyVal where
  | none
  | str (s : String)
  | int (n : Int)
  | strList (l : List String)
  | node (x : XNode)
  deriving Repr

/-- Python dict assignment `d[k] = v`: replaces the value in place when the
key exists, else appends (insertion order preserved). -/
def dset : List (String × PyVal) → String → PyVal → List (String × PyVal)
  | [], k, v => [(k, v)]
  | (k', v') :: r, k, v =>
      if k' = k then (k, v) :: r else (k', v') :: dset r k v

/-- Python dict read `d[k]` (as an option). -/
def dget (d : List (String × PyVal)) (k : String) : Option PyVal :=
  List.lookup k d

/-- The `list_case` bookkeeping: `+= 1` when the label was seen, `= 1`
otherwise. -/
def bump : List (String × Nat) → String → List (String × Nat)
  | [], k => [(k, 1)]
  | (k', c) :: r, k =>
      if k' = k then (k', c + 1) :: r else (k', c) :: bump r k

/-- `list_case[k]` (0 when unseen, which the code never reads). -/
def countOf (m : List (String × Nat)) (k : String) : Nat :=
  (List.lookup k m).getD 0

/-- `str(n)` for a natural number, gained by fuel recursion so that it
evaluates by kernel reduction. -/
def natToStrAux : Nat → Nat → List Char
  | _, 0 => []
  | n, fuel + 1 =>
      if n < 10 then [Char.ofNat (48 + n)]
      else natToStrAux (n / 10) fuel ++ [Char.ofNat (48 + n % 10)]

/-- `str(n)` for a natural number. -/
def natToStr (n : Nat) : String := String.mk (natToStrAux n (n + 1))

/-- All-digits parse for Python `int()` (underscores between digits, which
never occur in these documents, are not modelled). -/
def intDigits (d : List Char) : Option Int :=
  if d ≠ [] ∧ d.all Char.isDigit then some (digitsVal d : Int) else none

/-- Python `int(s)`: whitespace stripped, optional sign, digits. -/
def pyIntL (l : List Char) : Option Int :=
  let t := pyStrip l
  if t.head? = some '+' then intDigits (t.drop 1)
  else if t.head? = some '-' then (intDigits (t.drop 1)).map Neg.neg
  else intDigits t

/-- `s.find(c)`: index of the first occurrence, `-1` when absent. -/
def strFindAux : List Char → Char → Nat → Option Nat
  | [], _, _ => none
  | x :: r, c, i => if x = c then some i else strFindAux r c (i + 1)

/-- `s.find(c)` as the Python `str.find`. -/
def strFind (l : List Char) (c : Char) : Int :=
  match strFindAux l c 0 with
  | some i => i
  | none => -1

/-- Python slice `s[:i]` (a negative bound counts from the end, clamped). -/
def pySliceTo (l : List Char) (i : Int) : List Char :=
  if 0 ≤ i then l.take i.toNat else l.take (l.length - (-i).toNat)

/-- Python slice `s[-2:]`. -/
def pyLastTwo (l : List Char) : List Char := l.drop (l.length - 2)

/-- The `expected_time` conversion of `getStatusOnCasesKeywords`:
`ind = tmp.find(':')`, then `int(tmp[:ind]) * 60 + int(tmp[-2:])`; any
exception yields `None` (modelled as `none`). -/
def parseExpectedTime (tmp : String) : Option Int :=
  (pyIntL (pySliceTo tmp.data (strFind tmp.data ':'))).bind fun h =>
    (pyIntL (pyLastTwo tmp.data)).map fun m => h * 60 + m

/-- `Parser.getDepends`: the `args` of the last `depends` descendant; `none`
models both the `NameError` when there is none and the `KeyError` when one
lacks `args` (the caller catches every exception). -/
def getDependsAux : List XNode → Option String → Option String
  | [], acc => acc
  | n :: ns, _ =>
      match lookupAttr n "args" with
      | some v => getDependsAux ns (some v)
      | none => none

/-- `Parser.getDepends` as observed through the caller's `try/except`. -/
def getDepends (caseNode : XNode) : Option String :=
  getDependsAux (caseNode.getElementsByTagName "depends") none

/-- The `run_id` of a case record: the attribute when present and non-empty,
else `"run" + str(count)`. -/
def runIdVal (node : XNode) (cnt : Nat) : String :=
  match lookupAttr node "run_id" with
  | some v => if v ≠ "" then v else "run" ++ natToStr cnt
  | none => "run" ++ natToStr cnt

/-- The `n_procs` of a case record. -/
def nProcsVal (node : XNode) : PyVal :=
  match lookupAttr node "n_procs" with
  | some v => .str v
  | none => .none

/-- The `tags` of a case record: the case's own comma-split tags followed by
(`+=`) the study tags; `None` when the concatenation is empty. -/
def caseTagsVal (node : XNode) (studyTags : List String) : PyVal :=
  let all := (match lookupAttr node "tags" with
              | some t => splitStrip t
              | none => []) ++ studyTags
  if all = [] then .none else .strList all

/-- The `depends` of a case record. -/
def dependsVal (node : XNode) : PyVal :=
  match getDepends node with
  | some s => .str s
  | none => .none

/-- The `expected_time` of a case record. -/
def expectedTimeVal (node : XNode) : PyVal :=
  match lookupAttr node "expected_time" with
  | some s =>
      match parseExpectedTime s with
      | some m => .int m
      | none => .none
  | none => .none

/-- The retired flag-style keys that accumulate their `args` attribute. -/
def setupFilterKeys : List String := ["notebook", "parametric", "kw_args"]

/-- The structural sub-directive elements excluded from the scalar-child
scan. -/
def structuralKeys : List String := ["compare", "prepro", "script", "data", "depends"]

/-- The accumulation for a childless flag-style element: when the key is
still falsy (`None` or `''`) the `args` value is stored, otherwise appended
after a blank. -/
def setupAccum (d : List (String × PyVal)) (tag args : String) :
    List (String × PyVal) :=
  match dget d tag with
  | some (.str s) =>
      if s ≠ "" then dset d tag (.str (s ++ " " ++ args))
      else dset d tag (.str args)
  | _ => dset d tag (.str args)

/-- The child-node scan at the end of each iteration of
`getStatusOnCasesKeywords`: element children with content store their first
child's text under their tag (an `AttributeError` when that first child is
not a text node), childless elements with a recognised flag tag accumulate
their `args` attribute (`getAttribute` returning `''` on absence). -/
def childScan : List XNode → List (String × PyVal) → Except PyErr (List (String × PyVal))
  | [], d => .ok d
  | .text _ :: cs, d => childScan cs d
  | .elem tag attrs2 [] :: cs, d =>
      if tag ∈ setupFilterKeys then
        childScan cs (setupAccum d tag ((List.lookup "args" attrs2).getD ""))
      else childScan cs d
  | .elem tag _attrs (c0 :: _crest) :: cs, d =>
      if tag ∈ structuralKeys then childScan cs d
      else
        match c0 with
        | .text s => childScan cs (dset d tag (.str s))
        | .elem _ _ _ => .error .attributeError

/-- One record of `getStatusOnCasesKeywords`, for an enabled case with the
given label and occurrence count, built in the source's insertion order. -/
def buildCaseRecord (studyTags : List String) (node : XNode) (label : String)
    (cnt : Nat) : Except PyErr (List (String × PyVal)) :=
  childScan node.childNodes
    [("node", .node node), ("label", .str label),
     ("run_id", .str (runIdVal node cnt)), ("n_procs", nProcsVal node),
     ("tags", caseTagsVal node studyTags), ("depends", dependsVal node),
     ("expected_time", expectedTimeVal node),
     ("notebook", .none), ("parametric", .none), ("kw_args", .none)]

/-- `self.getStudyTags(self.getStudyNode(l))`, recomputed at each iteration
(`AttributeError` when the study node is `None`). -/
def studyTagsOf (root : XNode) (l : String) : Except PyErr (List String) :=
  getStudyNode root l >>= fun sn? =>
    match sn? with
    | none => .error .attributeError
    | some sn => getStudyTags sn

/-- Loop of `Parser.getStatusOnCasesKeywords` over the case nodes, carrying
the `list_case` occurrence counter. -/
def casesAux (root : XNode) (l : String) :
    List XNode → List (String × Nat) → Except PyErr (List (List (String × PyVal)))
  | [], _ => .ok []
  | node :: ns, counter => do
      let status ← attrValueE node "status"
      if status = "on" then do
        let label ← attrValueE node "label"
        let studyTags ← studyTagsOf root l
        let d ← buildCaseRecord studyTags node label
          (countOf (bump counter label) label)
        let rest ← casesAux root l ns (bump counter label)
        .ok (d :: rest)
      else casesAux root l ns counter

/-- `Parser.getStatusOnCasesKeywords`: one dictionary per `status='on'` case
of study `l`, in document order.  (The deprecated `compute`/`post`/`compare`
attribute check only prints a warning and does not affect the returned
data.) -/
def getStatusOnCasesKeywords (root : XNode) (l : String) :
    Except PyErr (List (List (String × PyVal))) :=
  getStudyNode root l >>= fun sn? =>
    match sn? with
    | none => .error .attributeError
    | some sn => casesAux root l (sn.getElementsByTagName "case") []

example : parseExpectedTime "01:30" = some 90 := by decide

example : natToStr 2 = "2" := by decide

example :
    (getStatusOnCasesKeywords
      (.elem "studymanager" []
        [.elem "study" [("label", "S"), ("status", "on"), ("tags", "t")]
          [.elem "case" [("label", "C"), ("status", "on"), ("tags", "t")] []]])
      "S").map (fun recs => recs.map (fun r => dget r "tags"))
      = .ok [some (.strList ["t", "t"])] := rfl

/-- The `status='on'` nodes of a list, in order. -/
def enabledIn (ns : List XNode) : List XNode :=
  ns.filter (fun n => lookupAttr n "status" == some "on")

/-- How many of these nodes carry label `lbl`. -/
def countLabel (ms : List XNode) (lbl : String) : Nat :=
  ms.countP (fun m => lookupAttr m "label" == some lbl)

lemma attrValueE_ok {n : XNode} {k v : String} :
    attrValueE n k = .ok v ↔ lookupAttr n k = some v := by
  unfold attrValueE
  cases h : lookupAttr n k <;> simp

lemma countOf_bump (m : List (String × Nat)) (k k' : String) :
    countOf (bump m k) k' = countOf m k' + (if k = k' then 1 else 0) := by
  induction m with
  | nil =>
      by_cases h : k = k'
      · subst h; simp [bump, countOf, List.lookup]
      · have hb : (k' == k) = false := beq_eq_false_iff_ne.mpr (Ne.symm h)
        simp [bump, countOf, List.lookup, hb, h]
  | cons p r ih =>
      obtain ⟨k0, c⟩ := p
      by_cases hk0 : k0 = k
      · subst hk0
        rw [bump, if_pos rfl]
        by_cases h : k0 = k'
        · subst h
          simp [countOf, List.lookup]
        · have hb : (k' == k0) = false := beq_eq_false_iff_ne.mpr (Ne.symm h)
          simp [countOf, List.lookup, hb, h]
      · rw [bump, if_neg hk0]
        by_cases h0 : k' = k0
        · subst h0
          have hne : ¬ k = k' := fun h => hk0 h.symm
          simp [countOf, List.lookup, hne]
        · have hb : (k' == k0) = false := beq_eq_false_iff_ne.mpr h0
          have := ih
          simp only [countOf, List.lookup, hb] at this ⊢
          exact this

lemma dget_dset_ne {d : List (String × PyVal)} {k key : String} {v : PyVal}
    (h : key ≠ k) : dget (dset d k v) key = dget d key := by
  have hb : (key == k) = false := beq_eq_false_iff_ne.mpr h
  induction d with
  | nil => simp [dset, dget, List.lookup, hb]
  | cons p r ih =>
      obtain ⟨k0, v0⟩ := p
      by_cases hk0 : k0 = k
      · subst hk0
        rw [dset, if_pos rfl]
        simp [dget, List.lookup, hb]
      · rw [dset, if_neg hk0]
        simp only [dget, List.lookup] at ih ⊢
        rw [ih]

lemma dget_setupAccum_ne {d : List (String × PyVal)} {key tag : String}
    {args : String} (h : key ≠ tag) :
    dget (setupAccum d tag args) key = dget d key := by
  rw [setupAccum.eq_def]
  cases dget d tag with
  | none => exact dget_dset_ne h
  | some pv =>
      cases pv with
      | str s => by_cases hs : s = "" <;> simp [hs, dget_dset_ne h]
      | none => exact dget_dset_ne h
      | int n => exact dget_dset_ne h
      | strList l => exact dget_dset_ne h
      | node x => exact dget_dset_ne h

lemma childScan_preserve (key : String) (hsetup : key ∉ setupFilterKeys) :
    ∀ (cs : List XNode) (d d' : List (String × PyVal)),
      childScan cs d = .ok d' →
      (∀ tag a2 c0 cr, XNode.elem tag a2 (c0 :: cr) ∈ cs → tag ≠ key) →
      dget d' key = dget d key := by
  intro cs
  induction cs with
  | nil =>
      intro d d' h _
      rw [childScan] at h
      injection h with h
      rw [h]
  | cons c cs ih =>
      intro d d' h hclean
      match c with
      | .text _ =>
          rw [childScan] at h
          exact ih d d' h (fun tag a2 c0 cr hm => hclean tag a2 c0 cr (by simp [hm]))
      | .elem tag attrs2 [] =>
          rw [childScan] at h
          by_cases htag : tag ∈ setupFilterKeys
          · rw [if_pos htag] at h
            have hne : key ≠ tag := fun he => hsetup (he ▸ htag)
            rw [ih _ d' h (fun t a2 c0 cr hm => hclean t a2 c0 cr (by simp [hm])),
              dget_setupAccum_ne hne]
          · rw [if_neg htag] at h
            exact ih d d' h (fun t a2 c0 cr hm => hclean t a2 c0 cr (by simp [hm]))
      | .elem tag attrs2 (XNode.text s :: crest) =>
          rw [childScan] at h
          have hne : tag ≠ key := hclean tag attrs2 (XNode.text s) crest (by simp)
          by_cases htag : tag ∈ structuralKeys
          · rw [if_pos htag] at h
            exact ih d d' h (fun t a2 c00 cr hm => hclean t a2 c00 cr (by simp [hm]))
          · rw [if_neg htag] at h
            rw [ih _ d' h (fun t a2 c00 cr hm => hclean t a2 c00 cr (by simp [hm])),
              dget_dset_ne (Ne.symm hne)]
      | .elem tag attrs2 (XNode.elem t2 a2 ch2 :: crest) =>
          rw [childScan] at h
          by_cases htag : tag ∈ structuralKeys
          · rw [if_pos htag] at h
            exact ih d d' h (fun t a3 c00 cr hm => hclean t a3 c00 cr (by simp [hm]))
          · rw [if_neg htag] at h
            exact Except.noConfusion h

lemma casesAux_spec (root : XNode) (l : String) (stags : List String)
    (hst : studyTagsOf root l = .ok stags) (ns : List XNode) :
    ∀ (counter : List (String × Nat)) (recs : List (List (String × PyVal))),
      casesAux root l ns counter = .ok recs →
      recs.length = (enabledIn ns).length ∧
      ∀ i node rec, (enabledIn ns)[i]? = some node → recs[i]? = some rec →
        ∃ lbl, lookupAttr node "label" = some lbl ∧
          buildCaseRecord stags node lbl
            (countOf counter lbl + countLabel ((enabledIn ns).take (i + 1)) lbl)
            = .ok rec := by
  induction ns with
  | nil =>
      intro counter recs h
      rw [casesAux] at h
      injection h with h
      subst h
      exact ⟨by simp [enabledIn], fun i node rec h1 _ => by simp [enabledIn] at h1⟩
  | cons node0 ns ih =>
      intro counter recs h
      rw [casesAux] at h
      cases hstv : attrValueE node0 "status" with
      | error e => rw [hstv, exceptBindErr] at h; exact Except.noConfusion h
      | ok st =>
          have hstatus : lookupAttr node0 "status" = some st := attrValueE_ok.mp hstv
          simp only [hstv, exceptBindOk] at h
          by_cases hon : st = "on"
          · subst hon
            rw [if_pos rfl] at h
            cases hlabv : attrValueE node0 "label" with
            | error e => rw [hlabv, exceptBindErr] at h; exact Except.noConfusion h
            | ok lab =>
                have hlab : lookupAttr node0 "label" = some lab := attrValueE_ok.mp hlabv
                simp only [hlabv, exceptBindOk, hst] at h
                cases hbld : buildCaseRecord stags node0 lab
                    (countOf (bump counter lab) lab) with
                | error e => rw [hbld, exceptBindErr] at h; exact Except.noConfusion h
                | ok d0 =>
                    simp only [hbld, exceptBindOk] at h
                    cases hrest : casesAux root l ns (bump counter lab) with
                    | error e => rw [hrest, exceptBindErr] at h; exact Except.noConfusion h
                    | ok rest =>
                        simp only [hrest, exceptBindOk] at h
                        injection h with h
                        subst h
                        obtain ⟨ihlen, ihget⟩ := ih (bump counter lab) rest hrest
                        have hen : enabledIn (node0 :: ns) = node0 :: enabledIn ns := by
                          simp [enabledIn, List.filter_cons, hstatus]
                        rw [hen]
                        constructor
                        · simp [ihlen]
                        · intro i node rec h1 h2
                          match i with
                          | 0 =>
                              simp only [List.getElem?_cons_zero, Option.some.injEq] at h1 h2
                              subst h1
                              subst h2
                              refine ⟨lab, hlab, ?_⟩
                              have hcnt : countOf counter lab
                                    + countLabel ((node0 :: enabledIn ns).take 1) lab
                                  = countOf (bump counter lab) lab := by
                                rw [countOf_bump, if_pos rfl]
                                simp [countLabel, List.countP_cons, hlab]
                              rw [hcnt]
                              exact hbld
                          | Nat.succ i =>
                              simp only [List.getElem?_cons_succ] at h1 h2
                              obtain ⟨lbl, hlbl, hbc⟩ := ihget i node rec h1 h2
                              refine ⟨lbl, hlbl, ?_⟩
                              have hcnt : countOf counter lbl
                                    + countLabel ((node0 :: enabledIn ns).take (i + 1 + 1)) lbl
                                  = countOf (bump counter lab) lbl
                                    + countLabel ((enabledIn ns).take (i + 1)) lbl := by
                                rw [List.take_succ_cons, countOf_bump]
                                have hc : countLabel (node0 :: (enabledIn ns).take (i + 1)) lbl
                                    = countLabel ((enabledIn ns).take (i + 1)) lbl
                                      + (if lab = lbl then 1 else 0) := by
                                  rw [countLabel, List.countP_cons, hlab]
                                  by_cases hll : lab = lbl <;>
                                    simp [hll, countLabel]
                                rw [hc]
                                omega
                              rw [hcnt]
                              exact hbc
          · rw [if_neg hon] at h
            have hen : enabledIn (node0 :: ns) = enabledIn ns := by
              have hb : (lookupAttr node0 "status" == some "on") = false := by
                rw [hstatus]
                simpa using hon
              simp [enabledIn, List.filter_cons, hb]
            obtain ⟨ihlen, ihget⟩ := ih counter recs h
            rw [hen]
            exact ⟨ihlen, ihget⟩

lemma buildCaseRecord_run_id {stags : List String} {node : XNode} {label : String}
    {cnt : Nat} {rec : List (String × PyVal)}
    (h : buildCaseRecord stags node label cnt = .ok rec)
    (hclean : ∀ tag a2 c0 cr, XNode.elem tag a2 (c0 :: cr) ∈ node.childNodes →
      tag ≠ "run_id") :
    dget rec "run_id" = some (.str (runIdVal node cnt)) := by
  rw [buildCaseRecord] at h
  rw [childScan_preserve "run_id" (by decide) _ _ _ h hclean]
  rfl

lemma buildCaseRecord_tags {stags : List String} {node : XNode} {label : String}
    {cnt : Nat} {rec : List (String × PyVal)}
    (h : buildCaseRecord stags node label cnt = .ok rec)
    (hclean : ∀ tag a2 c0 cr, XNode.elem tag a2 (c0 :: cr) ∈ node.childNodes →
      tag ≠ "tags") :
    dget rec "tags" = some (caseTagsVal node stags) := by
  rw [buildCaseRecord] at h
  rw [childScan_preserve "tags" (by decide) _ _ _ h hclean]
  rfl

lemma buildCaseRecord_expected_time {stags : List String} {node : XNode}
    {label : String} {cnt : Nat} {rec : List (String × PyVal)}
    (h : buildCaseRecord stags node label cnt = .ok rec)
    (hclean : ∀ tag a2 c0 cr, XNode.elem tag a2 (c0 :: cr) ∈ node.childNodes →
      tag ≠ "expected_time") :
    dget rec "expected_time" = some (expectedTimeVal node) := by
  rw [buildCaseRecord] at h
  rw [childScan_preserve "expected_time" (by decide) _ _ _ h hclean]
  rfl

/-- C6 counterexample: the tags of a case record are the concatenation of
the case tags and the study tags, not their union — a tag carried by both
appears twice. -/
theorem caseTags_concatenated_not_union :
    (getStatusOnCasesKeywords
      (.elem "studymanager" []
        [.elem "study" [("label", "S"), ("status", "on"), ("tags", "t")]
          [.elem "case" [("label", "C"), ("status", "on"), ("tags", "t")] []]])
      "S").map (fun recs => recs.map (fun r => dget r "tags"))
      = .ok [some (.strList ["t", "t"])] ∧
    (["t", "t"] : List String) ≠ ["t"] :=
  ⟨rfl, by decide⟩

/-- C6 as amended: for study `l`, `getStatusOnCasesKeywords` yields one
record per `status='on'` case, in document order; a case whose `run_id`
attribute is absent or empty gets `run_id = "run" + k` where `k` is the
1-indexed count of enabled cases with the same label seen so far (the
current one included), a non-empty `run_id` attribute is kept as is; and
each record's tags are the case's own tags *concatenated* with (not unioned
with) the study tags, duplicates preserved, `None` when both are empty.
(The scalar-child scan could overwrite these keys, hence the no-child-named
`run_id`/`tags` proviso.) -/
theorem caseRecords_spec (root : XNode) (l : String) (sn : XNode)
    (stags : List String) (recs : List (List (String × PyVal)))
    (hsn : getStudyNode root l = .ok (some sn))
    (hst : studyTagsOf root l = .ok stags)
    (hrecs : getStatusOnCasesKeywords root l = .ok recs) :
    recs.length = (enabledIn (sn.getElementsByTagName "case")).length ∧
    ∀ i node rec,
      (enabledIn (sn.getElementsByTagName "case"))[i]? = some node →
      recs[i]? = some rec →
      (∀ tag a2 c0 cr, XNode.elem tag a2 (c0 :: cr) ∈ node.childNodes →
        tag ≠ "run_id" ∧ tag ≠ "tags") →
      ∃ lbl, lookupAttr node "label" = some lbl ∧
        dget rec "run_id" = some (.str (runIdVal node
          (countLabel ((enabledIn (sn.getElementsByTagName "case")).take (i + 1)) lbl))) ∧
        dget rec "tags" = some (caseTagsVal node stags) := by
  rw [getStatusOnCasesKeywords, hsn, exceptBindOk] at hrecs
  have hca : casesAux root l (sn.getElementsByTagName "case") [] = .ok recs := hrecs
  obtain ⟨hlen, hget⟩ := casesAux_spec root l stags hst _ [] recs hca
  refine ⟨hlen, ?_⟩
  intro i node rec h1 h2 hclean
  obtain ⟨lbl, hlbl, hbc⟩ := hget i node rec h1 h2
  have hzero : countOf [] lbl
      + countLabel ((enabledIn (sn.getElementsByTagName "case")).take (i + 1)) lbl
      = countLabel ((enabledIn (sn.getElementsByTagName "case")).take (i + 1)) lbl := by
    simp [countOf, List.lookup]
  rw [hzero] at hbc
  exact ⟨lbl, hlbl,
    buildCaseRecord_run_id hbc (fun t a2 c0 cr hm => (hclean t a2 c0 cr hm).1),
    buildCaseRecord_tags hbc (fun t a2 c0 cr hm => (hclean t a2 c0 cr hm).2)⟩

/-- Study, cases and records of the C6 witness document: two enabled cases
both labelled `C`, the first with `run_id='custom'`, the second with none
and its own tag. -/
def wCase1 : XNode :=
  .elem "case" [("label", "C"), ("run_id", "custom"), ("status", "on")] []

def wCase2 : XNode :=
  .elem "case" [("label", "C"), ("status", "on"), ("tags", "ct")] []

def wSn : XNode :=
  .elem "study" [("label", "S"), ("status", "on"), ("tags", "su")]
    [wCase1, wCase2]

def wDoc : XNode := .elem "studymanager" [] [wSn]

def wRec1 : List (String × PyVal) :=
  [("node", .node wCase1), ("label", .str "C"), ("run_id", .str "custom"),
   ("n_procs", .none), ("tags", .strList ["su"]), ("depends", .none),
   ("expected_time", .none), ("notebook", .none), ("parametric", .none),
   ("kw_args", .none)]

def wRec2 : List (String × PyVal) :=
  [("node", .node wCase2), ("label", .str "C"), ("run_id", .str "run2"),
   ("n_procs", .none), ("tags", .strList ["ct", "su"]), ("depends", .none),
   ("expected_time", .none), ("notebook", .none), ("parametric", .none),
   ("kw_args", .none)]

/-- Witness for C6's amended theorem: run ids `custom` and `run2`, tags of
the second record `["ct", "su"]` (case tags then study tags). -/
theorem caseRecords_spec_witness :
    (∃ lbl, lookupAttr wCase1 "label" = some lbl ∧
      dget wRec1 "run_id" = some (.str (runIdVal wCase1
        (countLabel ((enabledIn (wSn.getElementsByTagName "case")).take 1) lbl))) ∧
      dget wRec1 "tags" = some (caseTagsVal wCase1 ["su"])) ∧
    (∃ lbl, lookupAttr wCase2 "label" = some lbl ∧
      dget wRec2 "run_id" = some (.str (runIdVal wCase2
        (countLabel ((enabledIn (wSn.getElementsByTagName "case")).take 2) lbl))) ∧
      dget wRec2 "tags" = some (caseTagsVal wCase2 ["su"])) ∧
    dget wRec1 "run_id" = some (.str "custom") ∧
    dget wRec2 "run_id" = some (.str "run2") ∧
    dget wRec2 "tags" = some (.strList ["ct", "su"]) := by
  have h := caseRecords_spec wDoc "S" wSn ["su"] [wRec1, wRec2] rfl rfl rfl
  refine ⟨?_, ?_, rfl, rfl, rfl⟩
  · exact h.2 0 wCase1 wRec1 rfl rfl
      (by intro t a2 c0 cr hm; simp [wCase1, XNode.childNodes] at hm)
  · exact h.2 1 wCase2 wRec2 rfl rfl
      (by intro t a2 c0 cr hm; simp [wCase2, XNode.childNodes] at hm)

lemma dropWhile_eq_self_of_all {α : Type} (p : α → Bool) :
    ∀ l : List α, (∀ c ∈ l, p c = false) → l.dropWhile p = l
  | [], _ => rfl
  | c :: r, h => by
      rw [List.dropWhile_cons, h c (by simp)]
      simp

lemma pyStrip_eq_self {l : List Char} (h : ∀ c ∈ l, isPySpace c = false) :
    pyStrip l = l := by
  rw [pyStrip, dropWhile_eq_self_of_all _ l h,
    dropWhile_eq_self_of_all _ l.reverse (fun c hc => h c (List.mem_reverse.mp hc)),
    List.reverse_reverse]

lemma isDigit_not_pySpace {c : Char} (h : c.isDigit = true) :
    isPySpace c = false := by
  by_contra hc
  simp only [isPySpace, Bool.or_eq_true, decide_eq_true_eq, Bool.not_eq_false] at hc
  rcases hc with ((((h1 | h1) | h1) | h1) | h1) | h1 <;> subst h1 <;>
    exact absurd h (by decide)

lemma pyIntL_digits {d : List Char} (h1 : d ≠ [])
    (h2 : d.all Char.isDigit = true) : pyIntL d = some (digitsVal d) := by
  have hsp : ∀ c ∈ d, isPySpace c = false := fun c hc =>
    isDigit_not_pySpace (List.all_eq_true.mp h2 c hc)
  have hstrip : pyStrip d = d := pyStrip_eq_self hsp
  obtain ⟨c, r, rfl⟩ : ∃ c r, d = c :: r := by
    cases d with
    | nil => exact absurd rfl h1
    | cons c r => exact ⟨c, r, rfl⟩
  have hcd : c.isDigit = true := List.all_eq_true.mp h2 c (by simp)
  have hplus : ¬ (c :: r : List Char).head? = some '+' := by
    simp only [List.head?, Option.some.injEq]
    intro hcc
    rw [hcc] at hcd
    exact absurd hcd (by decide)
  have hminus : ¬ (c :: r : List Char).head? = some '-' := by
    simp only [List.head?, Option.some.injEq]
    intro hcc
    rw [hcc] at hcd
    exact absurd hcd (by decide)
  rw [pyIntL]
  simp only [hstrip, if_neg hplus, if_neg hminus]
  rw [intDigits, if_pos ⟨by simp, h2⟩]
  simp

lemma strFindAux_append (c0 : Char) (b : List Char) :
    ∀ (a : List Char) (i : Nat), c0 ∉ a →
      strFindAux (a ++ c0 :: b) c0 i = some (i + a.length) := by
  intro a
  induction a with
  | nil => intro i _; simp [strFindAux]
  | cons x r ih =>
      intro i hx
      have hxc : ¬ x = c0 := fun h => hx (by simp [h])
      rw [List.cons_append, strFindAux, if_neg hxc,
        ih (i + 1) (fun hm => hx (by simp [hm]))]
      simp
      omega

lemma parseExpectedTime_hhmm (hh mm : String) (h1 : hh.data ≠ [])
    (h2 : hh.data.all Char.isDigit = true) (h3 : mm.data.length = 2)
    (h4 : mm.data.all Char.isDigit = true) :
    parseExpectedTime (hh ++ ":" ++ mm)
      = some ((digitsVal hh.data : Int) * 60 + (digitsVal mm.data : Int)) := by
  have hdata : (hh ++ ":" ++ mm).data = hh.data ++ ':' :: mm.data := by
    simp [String.data_append]
  have hnc : ':' ∉ hh.data := by
    intro hmem
    have := List.all_eq_true.mp h2 _ hmem
    exact absurd this (by decide)
  have hfind : strFind (hh.data ++ ':' :: mm.data) ':' = (hh.data.length : Int) := by
    rw [strFind, strFindAux_append ':' mm.data hh.data 0 hnc]
    simp
  have hslice : pySliceTo (hh.data ++ ':' :: mm.data) (hh.data.length : Int)
      = hh.data := by
    rw [pySliceTo, if_pos (by exact_mod_cast Nat.zero_le _)]
    rw [show ((hh.data.length : Int)).toNat = hh.data.length from by simp]
    exact List.take_left hh.data _
  have hlast : pyLastTwo (hh.data ++ ':' :: mm.data) = mm.data := by
    rw [pyLastTwo]
    have hlen : (hh.data ++ ':' :: mm.data).length - 2
        = (hh.data ++ [':']).length := by
      simp [h3]
    rw [hlen, show hh.data ++ ':' :: mm.data = (hh.data ++ [':']) ++ mm.data from by simp]
    exact List.drop_left _ _
  have hih : pyIntL hh.data = some (digitsVal hh.data) := pyIntL_digits h1 h2
  have him : pyIntL mm.data = some (digitsVal mm.data) :=
    pyIntL_digits (by intro h0; rw [h0] at h3; simp at h3) h4
  rw [parseExpectedTime, hdata, hfind, hslice, hlast, hih, him]
  simp [Int.mul_comm]

example :
    parseExpectedTime ("01" ++ ":" ++ "30")
      = some ((digitsVal "01".data : Int) * 60 + (digitsVal "30".data : Int)) :=
  parseExpectedTime_hhmm "01" "30" (by decide) (by decide) (by decide) (by decide)

/-- C7: in the records of `getStatusOnCasesKeywords`, an enabled case whose
`expected_time` attribute has the form `HH:MM` (digits, two-digit minutes)
gets the parsed value `60 * HH + MM`, and a case without a parseable
attribute gets `None` rather than an error — both when the attribute is
absent and when it is present but malformed, so that `int()` raises and the
`except` path yields the default.  (A no-child-named-`expected_time`
proviso guards against the scalar-child scan overwriting the key.) -/
theorem caseExpectedTime_spec (root : XNode) (l : String) (sn : XNode)
    (stags : List String) (recs : List (List (String × PyVal)))
    (hsn : getStudyNode root l = .ok (some sn))
    (hst : studyTagsOf root l = .ok stags)
    (hrecs : getStatusOnCasesKeywords root l = .ok recs) :
    ∀ (i : Nat) (node : XNode) (rec : List (String × PyVal)),
      (enabledIn (sn.getElementsByTagName "case"))[i]? = some node →
      recs[i]? = some rec →
      (∀ tag a2 c0 cr, XNode.elem tag a2 (c0 :: cr) ∈ node.childNodes →
        tag ≠ "expected_time") →
      ((∀ hh mm : String,
          lookupAttr node "expected_time" = some (hh ++ ":" ++ mm) →
          hh.data ≠ [] → hh.data.all Char.isDigit = true →
          mm.data.length = 2 → mm.data.all Char.isDigit = true →
          dget rec "expected_time"
            = some (.int (60 * (digitsVal hh.data : Int) + (digitsVal mm.data : Int)))) ∧
       (lookupAttr node "expected_time" = none →
          dget rec "expected_time" = some .none) ∧
       (∀ v : String,
          lookupAttr node "expected_time" = some v →
          parseExpectedTime v = none →
          dget rec "expected_time" = some .none)) := by
  rw [getStatusOnCasesKeywords, hsn, exceptBindOk] at hrecs
  have hca : casesAux root l (sn.getElementsByTagName "case") [] = .ok recs := hrecs
  obtain ⟨_, hget⟩ := casesAux_spec root l stags hst _ [] recs hca
  intro i node rec h1 h2 hclean
  obtain ⟨lbl, _, hbc⟩ := hget i node rec h1 h2
  have hfield : dget rec "expected_time" = some (expectedTimeVal node) :=
    buildCaseRecord_expected_time hbc hclean
  refine ⟨?_, ?_, ?_⟩
  · intro hh mm hlook hne hd2 hl3 hd4
    rw [hfield]
    simp only [expectedTimeVal, hlook, parseExpectedTime_hhmm hh mm hne hd2 hl3 hd4]
    rw [Int.mul_comm]
  · intro hlook
    rw [hfield]
    simp only [expectedTimeVal, hlook]
  · intro v hlook hparse
    rw [hfield]
    simp only [expectedTimeVal, hlook, hparse]

/-- Case, study and record literals of the C7 witness document. -/
def wtCase1 : XNode :=
  .elem "case" [("label", "C1"), ("status", "on"), ("expected_time", "01:30")] []

def wtCase2 : XNode :=
  .elem "case" [("label", "C2"), ("status", "on")] []

def wtCase3 : XNode :=
  .elem "case" [("label", "C3"), ("status", "on"), ("expected_time", "xx")] []

def wtSn : XNode :=
  .elem "study" [("label", "S"), ("status", "on")] [wtCase1, wtCase2, wtCase3]

def wtDoc : XNode := .elem "studymanager" [] [wtSn]

def wtRec1 : List (String × PyVal) :=
  [("node", .node wtCase1), ("label", .str "C1"), ("run_id", .str "run1"),
   ("n_procs", .none), ("tags", .none), ("depends", .none),
   ("expected_time", .int 90), ("notebook", .none), ("parametric", .none),
   ("kw_args", .none)]

def wtRec2 : List (String × PyVal) :=
  [("node", .node wtCase2), ("label", .str "C2"), ("run_id", .str "run1"),
   ("n_procs", .none), ("tags", .none), ("depends", .none),
   ("expected_time", .none), ("notebook", .none), ("parametric", .none),
   ("kw_args", .none)]

def wtRec3 : List (String × PyVal) :=
  [("node", .node wtCase3), ("label", .str "C3"), ("run_id", .str "run1"),
   ("n_procs", .none), ("tags", .none), ("depends", .none),
   ("expected_time", .none), ("notebook", .none), ("parametric", .none),
   ("kw_args", .none)]

/-- Witness for C7: `expected_time='01:30'` parses to 90 minutes in the
record; a case without the attribute gets `None`; a case with the
unparseable value `'xx'` also gets `None` instead of an error. -/
theorem caseExpectedTime_spec_witness :
    dget wtRec1 "expected_time" = some (.int 90) ∧
    dget wtRec2 "expected_time" = some .none ∧
    dget wtRec3 "expected_time" = some .none := by
  have h := caseExpectedTime_spec wtDoc "S" wtSn [] [wtRec1, wtRec2, wtRec3]
    rfl rfl rfl
  refine ⟨?_, ?_, ?_⟩
  · have h0 := (h 0 wtCase1 wtRec1 rfl rfl
      (by intro t a2 c0 cr hm; simp [wtCase1, XNode.childNodes] at hm)).1
      "01" "30" rfl (by decide) (by decide) (by decide) (by decide)
    simpa using h0
  · exact (h 1 wtCase2 wtRec2 rfl rfl
      (by intro t a2 c0 cr hm; simp [wtCase2, XNode.childNodes] at hm)).2.1 rfl
  · exact (h 2 wtCase3 wtRec3 rfl rfl
      (by intro t a2 c0 cr hm; simp [wtCase3, XNode.childNodes] at hm)).2.2
      "xx" rfl (by decide)

/-- XML name characters accepted by our reader (a superset of the names the
studymanager format uses). -/
def isNameChar (c : Char) : Bool :=
  c.isAlphanum || c = '_' || c = '-' || c = '.' || c = ':'

/-- XML whitespace. -/
def xmlSpace (c : Char) : Bool :=
  c = ' ' || c = '\t' || c = '\n' || c = '\r'

/-- The escaping of `minidom`'s `_write_data`, applied to text data and
attribute values on output: `&`, `<`, `"`, `>` become entities. -/
def escChar (c : Char) : List Char :=
  if c = '&' then ['&', 'a', 'm', 'p', ';']
  else if c = '<' then ['&', 'l', 't', ';']
  else if c = '"' then ['&', 'q', 'u', 'o', 't', ';']
  else if c = '>' then ['&', 'g', 't', ';']
  else [c]

/-- `_write_data` over a character list. -/
def escape : List Char → List Char
  | [] => []
  | c :: r => escChar c ++ escape r

/-- The serialized attribute list: ` key="escaped value"` for each
attribute, in order, as `Element.writexml` emits it. -/
def serAttrs : List (String × String) → List Char
  | [] => []
  | (k, v) :: r => ' ' :: k.data ++ '=' :: '"' :: escape v.data ++ '"' :: serAttrs r

/-- `Element.writexml`/`Text.writexml` with empty `indent`/`addindent`/
`newl`, which is what `Document.toxml()` uses: `<tag attrs/>` for childless
elements, `<tag attrs>children</tag>` otherwise, escaped character data for
text nodes. -/
def serNode : XNode → List Char
  | .text s => escape s.data
  | .elem t attrs cs =>
      '<' :: t.data ++ serAttrs attrs ++
        (if cs.isEmpty then ['/', '>']
         else '>' :: serList cs ++ '<' :: '/' :: t.data ++ ['>'])
where serList : List XNode → List Char
  | [] => []
  | c :: cs => serNode c ++ serList cs

/-- The document prologue `Document.writexml` emits before the root
element. -/
def xmlHeader : List Char := "<?xml version=\"1.0\" ?>".data

/-- `Parser.write` (`doc.toxml()`): prologue followed by the serialized
root. -/
def writeDoc (root : XNode) : List Char := xmlHeader ++ serNode root

/-- A hexadecimal digit. -/
def isHexDigit (c : Char) : Bool :=
  c.isDigit || ('a' ≤ c && c ≤ 'f') || ('A' ≤ c && c ≤ 'F')

/-- The value of a hexadecimal digit. -/
def hexDigitVal (c : Char) : Nat :=
  if c.isDigit then c.toNat - '0'.toNat
  else if 'a' ≤ c then c.toNat - 'a'.toNat + 10
  else c.toNat - 'A'.toNat + 10

/-- The value of a hexadecimal digit string. -/
def hexVal (l : List Char) : Nat :=
  l.foldl (fun a c => a * 16 + hexDigitVal c) 0

/-- A numeric character reference body, the input starting just after `&#`:
decimal digits or `x` and hexadecimal digits, up to `;`.  Yields the
referenced character and the rest of the input; a reference to a code
outside the Unicode scalar range is a parse error.  A character produced
this way bypasses expat's line-ending and attribute-whitespace
normalization, which applies only to literal characters. -/
def charRef (r : List Char) : Option (Char × List Char) :=
  if r.head? = some 'x' then
    let ds := (r.drop 1).takeWhile isHexDigit
    let rest := (r.drop 1).dropWhile isHexDigit
    if ds = [] then none
    else if rest.head? = some ';' then
      if hexVal ds < 0xd800 ∨ (0xdfff < hexVal ds ∧ hexVal ds < 0x110000) then
        some (Char.ofNat (hexVal ds), rest.drop 1)
      else none
    else none
  else
    let ds := r.takeWhile Char.isDigit
    let rest := r.dropWhile Char.isDigit
    if ds = [] then none
    else if rest.head? = some ';' then
      if digitsVal ds < 0xd800
          ∨ (0xdfff < digitsVal ds ∧ digitsVal ds < 0x110000) then
        some (Char.ofNat (digitsVal ds), rest.drop 1)
      else none
    else none

/-- Character-data scan of the reload parser: decodes the five predefined
entities and numeric character references, normalizes literal line endings
like expat (`\r\n` and `\r` to `\n`; a `\r` arriving via `&#13;` stays
as it is), and stops before `<` or at the end; an unknown entity is a parse
error.  The fuel (one unit per decoded character) keeps the recursion
structural. -/
def parseTextAux : Nat → List Char → Option (List Char × List Char)
  | 0, _ => none
  | _ + 1, [] => some ([], [])
  | fuel + 1, c :: r =>
      if c = '<' then some ([], c :: r)
      else if c = '&' then
        if r.take 4 = ['a', 'm', 'p', ';'] then
          (parseTextAux fuel (r.drop 4)).map fun p => ('&' :: p.1, p.2)
        else if r.take 3 = ['l', 't', ';'] then
          (parseTextAux fuel (r.drop 3)).map fun p => ('<' :: p.1, p.2)
        else if r.take 3 = ['g', 't', ';'] then
          (parseTextAux fuel (r.drop 3)).map fun p => ('>' :: p.1, p.2)
        else if r.take 5 = ['q', 'u', 'o', 't', ';'] then
          (parseTextAux fuel (r.drop 5)).map fun p => ('"' :: p.1, p.2)
        else if r.take 5 = ['a', 'p', 'o', 's', ';'] then
          (parseTextAux fuel (r.drop 5)).map fun p => ('\'' :: p.1, p.2)
        else if r.take 1 = ['#'] then
          (charRef (r.drop 1)).bind fun cr2 =>
            (parseTextAux fuel cr2.2).map fun p => (cr2.1 :: p.1, p.2)
        else none
      else if c = '\r' then
        if r.take 1 = ['\n'] then
          (parseTextAux fuel (r.drop 1)).map fun p => ('\n' :: p.1, p.2)
        else (parseTextAux fuel r).map fun p => ('\n' :: p.1, p.2)
      else (parseTextAux fuel r).map fun p => (c :: p.1, p.2)

/-- Attribute-value scan up to the closing quote: entities and numeric
character references decoded, literal whitespace characters normalized to a
space as expat does for CDATA attributes (a whitespace character arriving
via a character reference such as `&#10;` is NOT normalized), a raw `<`
rejected. -/
def parseAttrValue : Nat → List Char → Option (List Char × List Char)
  | 0, _ => none
  | _ + 1, [] => none
  | fuel + 1, c :: r =>
      if c = '"' then some ([], r)
      else if c = '<' then none
      else if c = '&' then
        if r.take 4 = ['a', 'm', 'p', ';'] then
          (parseAttrValue fuel (r.drop 4)).map fun p => ('&' :: p.1, p.2)
        else if r.take 3 = ['l', 't', ';'] then
          (parseAttrValue fuel (r.drop 3)).map fun p => ('<' :: p.1, p.2)
        else if r.take 3 = ['g', 't', ';'] then
          (parseAttrValue fuel (r.drop 3)).map fun p => ('>' :: p.1, p.2)
        else if r.take 5 = ['q', 'u', 'o', 't', ';'] then
          (parseAttrValue fuel (r.drop 5)).map fun p => ('"' :: p.1, p.2)
        else if r.take 5 = ['a', 'p', 'o', 's', ';'] then
          (parseAttrValue fuel (r.drop 5)).map fun p => ('\'' :: p.1, p.2)
        else if r.take 1 = ['#'] then
          (charRef (r.drop 1)).bind fun cr2 =>
            (parseAttrValue fuel cr2.2).map fun p => (cr2.1 :: p.1, p.2)
        else none
      else if c = '\r' then
        if r.take 1 = ['\n'] then
          (parseAttrValue fuel (r.drop 1)).map fun p => (' ' :: p.1, p.2)
        else (parseAttrValue fuel r).map fun p => (' ' :: p.1, p.2)
      else if c = '\n' ∨ c = '\t' then
        (parseAttrValue fuel r).map fun p => (' ' :: p.1, p.2)
      else (parseAttrValue fuel r).map fun p => (c :: p.1, p.2)

/-- Attribute-list scan: each attribute needs at least one leading space,
a name, `="`, a value; the scan stops before `/` or `>`.  The fuel bounds
the number of attributes. -/
def parseAttrs : Nat → List Char → Option (List (String × String) × List Char)
  | 0, _ => none
  | fuel + 1, input =>
      if (input.dropWhile xmlSpace).head? = some '/'
         ∨ (input.dropWhile xmlSpace).head? = some '>' then
        some ([], input.dropWhile xmlSpace)
      else if input.takeWhile xmlSpace = [] then none
      else if (input.dropWhile xmlSpace).takeWhile isNameChar = [] then none
      else if ((input.dropWhile xmlSpace).dropWhile isNameChar).take 2
          = ['=', '"'] then
        (parseAttrValue
            ((((input.dropWhile xmlSpace).dropWhile isNameChar).drop 2).length + 1)
            (((input.dropWhile xmlSpace).dropWhile isNameChar).drop 2)).bind
          fun vr =>
            (parseAttrs fuel vr.2).map fun ar =>
              ((String.mk ((input.dropWhile xmlSpace).takeWhile isNameChar),
                String.mk vr.1) :: ar.1, ar.2)
      else none

mutual

/-- Element scan: `<name attrs/>` or `<name attrs>content</name>` (the
closing name must match). -/
def parseElem : Nat → List Char → Option (XNode × List Char)
  | 0, _ => none
  | fuel + 1, input =>
      match input with
      | '<' :: r =>
          if r.takeWhile isNameChar = [] then none
          else
            (parseAttrs fuel (r.dropWhile isNameChar)).bind fun ar =>
              if ar.2.take 2 = ['/', '>'] then
                some (.elem (String.mk (r.takeWhile isNameChar)) ar.1 [], ar.2.drop 2)
              else if ar.2.head? = some '>' then
                (parseContent fuel (ar.2.drop 1)).bind fun cr =>
                  if cr.2.take 2 = ['<', '/'] then
                    if (cr.2.drop 2).takeWhile isNameChar = r.takeWhile isNameChar
                       ∧ ((cr.2.drop 2).dropWhile isNameChar).head? = some '>' then
                      some (.elem (String.mk (r.takeWhile isNameChar)) ar.1 cr.1,
                            ((cr.2.drop 2).dropWhile isNameChar).drop 1)
                    else none
                  else none
              else none
      | _ => none

/-- Content scan: a sequence of elements and non-empty text runs, stopping
before a closing tag. -/
def parseContent : Nat → List Char → Option (List XNode × List Char)
  | 0, _ => none
  | fuel + 1, input =>
      match input with
      | [] => none
      | c :: r =>
          if c = '<' then
            if r.head? = some '/' then some ([], c :: r)
            else
              (parseElem fuel (c :: r)).bind fun er =>
                (parseContent fuel er.2).map fun cr => (er.1 :: cr.1, cr.2)
          else
            (parseTextAux ((c :: r).length + 1) (c :: r)).bind fun tr =>
              (parseContent fuel tr.2).map fun cr =>
                (XNode.text (String.mk tr.1) :: cr.1, cr.2)

end

/-- Scan past the rest of a processing instruction, to just after `?>`. -/
def dropPI : List Char → Option (List Char)
  | [] => none
  | '?' :: '>' :: r => some r
  | _ :: r => dropPI r

/-- Skip the optional XML declaration. -/
def skipHeader (l : List Char) : Option (List Char) :=
  match l with
  | '<' :: '?' :: r => dropPI r
  | _ => some l

/-- Reload of a serialized document (`minidom.parse` on the written text):
optional declaration, whitespace, one root element, trailing whitespace. -/
def parseDocChars (l : List Char) : Option XNode :=
  (skipHeader l).bind fun r =>
    (parseElem ((r.dropWhile xmlSpace).length + 1) (r.dropWhile xmlSpace)).bind
      fun er => if er.2.dropWhile xmlSpace = [] then some er.1 else none

/-- `Parser.__init__` on a file whose text is `l`: parse (exit on a syntax
error) then the root-tag check. -/
def loadChars (fname : String) (l : List Char) : Except PyErr XNode :=
  match parseDocChars l with
  | none => .error (.exit "Error in the syntax of the xml.")
  | some root => loadTree fname root

/-- Is this a text node? -/
def XNode.isText : XNode → Bool
  | .text _ => true
  | .elem _ _ _ => false

/-- A valid XML name: non-empty, name characters only. -/
def wfName (s : String) : Bool :=
  !s.data.isEmpty && s.data.all isNameChar

/-- Serializable attribute value: no raw tab/newline/return (expat would
normalize those to spaces on reload). -/
def wfAttrVal (v : String) : Bool :=
  v.data.all fun c => !(c == '\r' || c == '\n' || c == '\t')

/-- No two adjacent text nodes (the reload would merge them). -/
def noTextText (c : XNode) (cs : List XNode) : Bool :=
  match cs with
  | [] => true
  | c2 :: _ => !(c.isText && c2.isText)

/-- Well-formedness of a document tree for exact round-tripping: names are
valid, attribute values carry no raw whitespace controls, text nodes are
non-empty without raw `\r`, and no two text children are adjacent. -/
def wfNode : XNode → Bool
  | .text s => !s.data.isEmpty && s.data.all (fun c => !(c == '\r'))
  | .elem t attrs cs =>
      wfName t &&
      attrs.all (fun kv => wfName kv.1 && wfAttrVal kv.2) &&
      wfList cs
where wfList : List XNode → Bool
  | [] => true
  | c :: cs => wfNode c && noTextText c cs && wfList cs

set_option maxRecDepth 100000 in
example : parseDocChars (writeDoc wDoc) = some wDoc := rfl

set_option maxRecDepth 100000 in
example :
    parseDocChars (writeDoc (.elem "studymanager" [("a", "x <&> \"y\"")]
      [.text "t1 < t2 & t3", .elem "b" [] [.text "z"], .text "w"]))
      = some (.elem "studymanager" [("a", "x <&> \"y\"")]
      [.text "t1 < t2 & t3", .elem "b" [] [.text "z"], .text "w"]) := rfl

lemma isNameChar_not_space {c : Char} (h : isNameChar c = true) :
    xmlSpace c = false := by
  by_contra hc
  rw [Bool.not_eq_false] at hc
  simp only [xmlSpace, Bool.or_eq_true, decide_eq_true_eq] at hc
  rcases hc with ((h1 | h1) | h1) | h1 <;> subst h1 <;> exact absurd h (by decide)

lemma isNameChar_ne_const {c c0 : Char} (h : isNameChar c = true)
    (h0 : isNameChar c0 = false) : c ≠ c0 := by
  intro hc
  rw [hc, h0] at h
  exact Bool.noConfusion h

lemma takeWhile_append_all {α : Type} (p : α → Bool) :
    ∀ (a rest : List α), (∀ c ∈ a, p c = true) →
      (∀ c, rest.head? = some c → p c = false) →
      (a ++ rest).takeWhile p = a ∧ (a ++ rest).dropWhile p = rest := by
  intro a
  induction a with
  | nil =>
      intro rest _ hrest
      cases rest with
      | nil => exact ⟨rfl, rfl⟩
      | cons c r =>
          have := hrest c rfl
          simp [List.takeWhile_cons, List.dropWhile_cons, this]
  | cons x a ih =>
      intro rest ha hrest
      have hx : p x = true := ha x (by simp)
      obtain ⟨h1, h2⟩ := ih rest (fun c hc => ha c (by simp [hc])) hrest
      constructor
      · rw [List.cons_append, List.takeWhile_cons, hx]
        simp [h1]
      · rw [List.cons_append, List.dropWhile_cons, hx]
        simpa using h2

lemma escape_length_ge : ∀ l : List Char, l.length ≤ (escape l).length := by
  intro l
  induction l with
  | nil => simp [escape]
  | cons c r ih =>
      rw [escape, List.length_append, List.length_cons]
      have : 1 ≤ (escChar c).length := by
        rw [escChar]
        split
        · simp
        · split
          · simp
          · split
            · simp
            · split <;> simp
      omega

lemma parseTextAux_escape :
    ∀ (l : List Char), (∀ c ∈ l, (c == '\r') = false) →
    ∀ (rest : List Char), (rest = [] ∨ rest.head? = some '<') →
    ∀ fuel : Nat, l.length + 1 ≤ fuel →
    parseTextAux fuel (escape l ++ rest) = some (l, rest) := by
  intro l
  induction l with
  | nil =>
      intro _ rest hrest fuel hfuel
      obtain ⟨f, rfl⟩ : ∃ f, fuel = f + 1 := ⟨fuel - 1, by omega⟩
      rcases hrest with rfl | hlt
      · rfl
      · cases rest with
        | nil => rfl
        | cons c r =>
            obtain rfl : c = '<' := by simpa using hlt
            rw [show escape [] ++ '<' :: r = '<' :: r from rfl,
              parseTextAux, if_pos rfl]
  | cons c l ih =>
      intro hcr rest hrest fuel hfuel
      obtain ⟨f, rfl⟩ : ∃ f, fuel = f + 1 := ⟨fuel - 1, by omega⟩
      have hcr0 : (c == '\r') = false := hcr c (by simp)
      have hihx := ih (fun x hx => hcr x (by simp [hx])) rest hrest f
        (by simp only [List.length_cons] at hfuel; omega)
      by_cases hamp : c = '&'
      · subst hamp
        rw [show escape ('&' :: l) ++ rest
            = '&' :: ('a' :: 'm' :: 'p' :: ';' :: (escape l ++ rest)) from by
          rw [escape]; rfl]
        rw [parseTextAux, if_neg (by decide), if_pos rfl]
        simp only [List.take, List.drop]
        simp [hihx]
      · by_cases hlt : c = '<'
        · subst hlt
          rw [show escape ('<' :: l) ++ rest
              = '&' :: ('l' :: 't' :: ';' :: (escape l ++ rest)) from by
            rw [escape]; rfl]
          rw [parseTextAux, if_neg (by decide), if_pos rfl]
          simp only [List.take, List.drop]
          simp [hihx]
        · by_cases hq : c = '"'
          · subst hq
            rw [show escape ('"' :: l) ++ rest
                = '&' :: ('q' :: 'u' :: 'o' :: 't' :: ';' :: (escape l ++ rest)) from by
              rw [escape]; rfl]
            rw [parseTextAux, if_neg (by decide), if_pos rfl]
            simp only [List.take, List.drop]
            simp [hihx]
          · by_cases hgt : c = '>'
            · subst hgt
              rw [show escape ('>' :: l) ++ rest
                  = '&' :: ('g' :: 't' :: ';' :: (escape l ++ rest)) from by
                rw [escape]; rfl]
              rw [parseTextAux, if_neg (by decide), if_pos rfl]
              simp only [List.take, List.drop]
              simp [hihx]
            · have hcrne : ¬ c = '\r' := by simpa using hcr0
              rw [show escape (c :: l) ++ rest = c :: (escape l ++ rest) from by
                rw [escape, escChar, if_neg hamp, if_neg hlt, if_neg hq, if_neg hgt]
                rfl]
              rw [parseTextAux, if_neg hlt, if_neg hamp, if_neg hcrne, hihx]
              rfl

lemma parseAttrValue_escape :
    ∀ (l : List Char),
      (∀ c ∈ l, (!(c == '\r' || c == '\n' || c == '\t')) = true) →
    ∀ (rest : List Char) (fuel : Nat), l.length + 1 ≤ fuel →
    parseAttrValue fuel (escape l ++ '"' :: rest) = some (l, rest) := by
  intro l
  induction l with
  | nil =>
      intro _ rest fuel hfuel
      obtain ⟨f, rfl⟩ : ∃ f, fuel = f + 1 := ⟨fuel - 1, by omega⟩
      rw [show escape [] ++ '"' :: rest = '"' :: rest from rfl,
        parseAttrValue, if_pos rfl]
  | cons c l ih =>
      intro hok rest fuel hfuel
      obtain ⟨f, rfl⟩ : ∃ f, fuel = f + 1 := ⟨fuel - 1, by omega⟩
      have hok0 := hok c (by simp)
      have hihx := ih (fun x hx => hok x (by simp [hx])) rest f
        (by simp only [List.length_cons] at hfuel; omega)
      by_cases hamp : c = '&'
      · subst hamp
        rw [show escape ('&' :: l) ++ '"' :: rest
            = '&' :: ('a' :: 'm' :: 'p' :: ';' :: (escape l ++ '"' :: rest)) from by
          rw [escape]; rfl]
        rw [parseAttrValue, if_neg (by decide), if_neg (by decide), if_pos rfl]
        simp only [List.take, List.drop]
        simp [hihx]
      · by_cases hlt : c = '<'
        · subst hlt
          rw [show escape ('<' :: l) ++ '"' :: rest
              = '&' :: ('l' :: 't' :: ';' :: (escape l ++ '"' :: rest)) from by
            rw [escape]; rfl]
          rw [parseAttrValue, if_neg (by decide), if_neg (by decide), if_pos rfl]
          simp only [List.take, List.drop]
          simp [hihx]
        · by_cases hq : c = '"'
          · subst hq
            rw [show escape ('"' :: l) ++ '"' :: rest
                = '&' :: ('q' :: 'u' :: 'o' :: 't' :: ';' :: (escape l ++ '"' :: rest)) from by
              rw [escape]; rfl]
            rw [parseAttrValue, if_neg (by decide), if_neg (by decide), if_pos rfl]
            simp only [List.take, List.drop]
            simp [hihx]
          · by_cases hgt : c = '>'
            · subst hgt
              rw [show escape ('>' :: l) ++ '"' :: rest
                  = '&' :: ('g' :: 't' :: ';' :: (escape l ++ '"' :: rest)) from by
                rw [escape]; rfl]
              rw [parseAttrValue, if_neg (by decide), if_neg (by decide), if_pos rfl]
              simp only [List.take, List.drop]
              simp [hihx]
            · have hcrne : ¬ c = '\r' := by
                intro h; subst h; exact absurd hok0 (by decide)
              have hnt : ¬ (c = '\n' ∨ c = '\t') := by
                intro h
                rcases h with h | h <;> subst h <;> exact absurd hok0 (by decide)
              rw [show escape (c :: l) ++ '"' :: rest
                  = c :: (escape l ++ '"' :: rest) from by
                rw [escape, escChar, if_neg hamp, if_neg hlt, if_neg hq, if_neg hgt]
                rfl]
              rw [parseAttrValue, if_neg hq, if_neg hlt, if_neg hamp, if_neg hcrne,
                if_neg hnt, hihx]
              rfl

lemma parseAttrs_ser :
    ∀ (attrs : List (String × String)) (fuel : Nat) (rest : List Char),
      attrs.length + 1 ≤ fuel →
      (∀ kv ∈ attrs, wfName kv.1 = true ∧ wfAttrVal kv.2 = true) →
      (rest.head? = some '/' ∨ rest.head? = some '>') →
      parseAttrs fuel (serAttrs attrs ++ rest) = some (attrs, rest) := by
  intro attrs
  induction attrs with
  | nil =>
      intro fuel rest hfuel _ hrest
      obtain ⟨f, rfl⟩ : ∃ f, fuel = f + 1 := ⟨fuel - 1, by omega⟩
      have hdw : rest.dropWhile xmlSpace = rest := by
        cases rest with
        | nil => rfl
        | cons c r =>
            rcases hrest with h | h
            · obtain rfl : c = '/' := by simpa using h
              rfl
            · obtain rfl : c = '>' := by simpa using h
              rfl
      rw [show serAttrs [] ++ rest = rest from by rw [serAttrs]; rfl]
      rw [parseAttrs, hdw, if_pos hrest]
  | cons kv as ih =>
      obtain ⟨k, v⟩ := kv
      intro fuel rest hfuel hwf hrest
      obtain ⟨f, rfl⟩ : ∃ f, fuel = f + 1 := ⟨fuel - 1, by omega⟩
      obtain ⟨hkname, hkval⟩ := hwf (k, v) (by simp)
      obtain ⟨hkne, hkall⟩ : k.data ≠ [] ∧ k.data.all isNameChar = true := by
        simpa [wfName] using hkname
      have hallmem : ∀ c ∈ k.data, isNameChar c = true := List.all_eq_true.mp hkall
      obtain ⟨kc, kr, hk⟩ : ∃ kc kr, k.data = kc :: kr := by
        cases hd : k.data with
        | nil => exact absurd hd hkne
        | cons kc kr => exact ⟨kc, kr, rfl⟩
      have hkc : isNameChar kc = true := hallmem kc (by rw [hk]; simp)
      have hinput : serAttrs ((k, v) :: as) ++ rest
          = ' ' :: (k.data
              ++ ('=' :: '"' :: (escape v.data ++ '"' :: (serAttrs as ++ rest)))) := by
        rw [serAttrs]
        simp [List.append_assoc]
      have hspan := takeWhile_append_all isNameChar k.data
        ('=' :: '"' :: (escape v.data ++ '"' :: (serAttrs as ++ rest)))
        hallmem
        (by
          intro c hc
          simp only [List.head?, Option.some.injEq] at hc
          rw [← hc]
          decide)
      have hdrop : (' ' :: (k.data
            ++ ('=' :: '"' :: (escape v.data ++ '"' :: (serAttrs as ++ rest))))).dropWhile
              xmlSpace
          = k.data ++ ('=' :: '"' :: (escape v.data ++ '"' :: (serAttrs as ++ rest))) := by
        rw [List.dropWhile_cons]
        rw [show xmlSpace ' ' = true from rfl]
        simp only [if_true]
        rw [hk, List.cons_append, List.dropWhile_cons, isNameChar_not_space hkc]
        simp [hk]
      have htake : (' ' :: (k.data
            ++ ('=' :: '"' :: (escape v.data ++ '"' :: (serAttrs as ++ rest))))).takeWhile
              xmlSpace
          = [' '] := by
        rw [List.takeWhile_cons]
        rw [show xmlSpace ' ' = true from rfl]
        simp only [if_true]
        rw [hk, List.cons_append, List.takeWhile_cons, isNameChar_not_space hkc]
        simp
      rw [hinput, parseAttrs, hdrop, htake]
      rw [if_neg (by
        rw [hk, List.cons_append]
        simp only [List.head?, Option.some.injEq]
        rintro (h | h) <;> subst h <;> exact absurd hkc (by decide))]
      rw [if_neg (by simp)]
      rw [hspan.1, hspan.2]
      rw [if_neg (by simp [hkne])]
      rw [if_pos (by simp [List.take])]
      rw [show ('=' :: '"' :: (escape v.data ++ '"' :: (serAttrs as ++ rest))).drop 2
          = escape v.data ++ '"' :: (serAttrs as ++ rest) from rfl]
      rw [parseAttrValue_escape v.data
        (List.all_eq_true.mp hkval)
        (serAttrs as ++ rest) _
        (by
          have h1 := escape_length_ge v.data
          simp only [List.length_append, List.length_cons]
          omega)]
      rw [show (Option.some (v.data, serAttrs as ++ rest)).bind
            (fun vr => (parseAttrs f vr.2).map fun ar =>
              ((String.mk (k.data), String.mk vr.1) :: ar.1, ar.2))
          = (parseAttrs f (serAttrs as ++ rest)).map fun ar =>
              ((String.mk (k.data), String.mk v.data) :: ar.1, ar.2) from rfl]
      rw [ih f rest (by simp only [List.length_cons] at hfuel; omega)
        (fun m hm => hwf m (by simp [hm])) hrest]
      rfl

lemma optBindSome {α β : Type} (a : α) (f : α → Option β) :
    (Option.some a).bind f = f a := rfl

lemma optMapSome {α β : Type} (a : α) (f : α → β) :
    (Option.some a).map f = some (f a) := rfl

/-- The first character `escape` emits for a given source character. -/
def headEsc (c : Char) : Char :=
  if c = '&' ∨ c = '<' ∨ c = '"' ∨ c = '>' then '&' else c

lemma escape_cons_head (sc : Char) (sr Y : List Char) :
    ∃ r1, escape (sc :: sr) ++ Y = headEsc sc :: r1 := by
  by_cases h1 : sc = '&'
  · subst h1
    exact ⟨'a' :: 'm' :: 'p' :: ';' :: (escape sr ++ Y),
      by simp [escape, escChar, headEsc]⟩
  · by_cases h2 : sc = '<'
    · subst h2
      exact ⟨'l' :: 't' :: ';' :: (escape sr ++ Y),
        by simp [escape, escChar, headEsc]⟩
    · by_cases h3 : sc = '"'
      · subst h3
        exact ⟨'q' :: 'u' :: 'o' :: 't' :: ';' :: (escape sr ++ Y),
          by simp [escape, escChar, headEsc]⟩
      · by_cases h4 : sc = '>'
        · subst h4
          exact ⟨'g' :: 't' :: ';' :: (escape sr ++ Y),
            by simp [escape, escChar, headEsc]⟩
        · exact ⟨escape sr ++ Y,
            by simp [escape, escChar, headEsc, h1, h2, h3, h4]⟩

lemma headEsc_ne_lt (c : Char) : ¬ headEsc c = '<' := by
  rw [headEsc]
  by_cases h : c = '&' ∨ c = '<' ∨ c = '"' ∨ c = '>'
  · rw [if_pos h]; decide
  · rw [if_neg h]
    intro hc
    exact h (Or.inr (Or.inl hc))

/-- A size measure bounding the fuel the reload parser needs. -/
def msize : XNode → Nat
  | .text _ => 1
  | .elem _ a cs => 2 + a.length + msizeList cs
where msizeList : List XNode → Nat
  | [] => 0
  | c :: cs => msize c + msizeList cs

lemma msize_pos (e : XNode) : 1 ≤ msize e := by
  cases e with
  | text s => simp [msize]
  | elem t a cs => rw [msize]; omega

lemma serAttrs_head_not_name (attrs : List (String × String)) (tail : List Char)
    (htail : ∀ c, tail.head? = some c → isNameChar c = false) :
    ∀ c, (serAttrs attrs ++ tail).head? = some c → isNameChar c = false := by
  cases attrs with
  | nil =>
      intro c hc
      exact htail c (by rwa [show serAttrs [] ++ tail = tail from by rw [serAttrs]; rfl] at hc)
  | cons kv as =>
      obtain ⟨k, v⟩ := kv
      intro c hc
      simp only [serAttrs, List.cons_append, List.head?_cons, Option.some.injEq] at hc
      rw [← hc]
      decide

lemma parse_ser : ∀ fuel : Nat,
    (∀ (e : XNode) (rest : List Char), wfNode e = true → e.isElem = true →
      msize e ≤ fuel → parseElem fuel (serNode e ++ rest) = some (e, rest)) ∧
    (∀ (cs : List XNode) (r' : List Char), wfNode.wfList cs = true →
      msize.msizeList cs + 1 ≤ fuel →
      parseContent fuel (serNode.serList cs ++ ('<' :: '/' :: r'))
        = some (cs, '<' :: '/' :: r')) := by
  intro fuel
  induction fuel with
  | zero =>
      constructor
      · intro e _ _ _ hsz
        exact absurd hsz (by have := msize_pos e; omega)
      · intro cs _ _ hsz
        exact absurd hsz (by omega)
  | succ f ih =>
      obtain ⟨ihE, ihC⟩ := ih
      constructor
      · intro e rest hwf helem hsz
        cases e with
        | text s => exact absurd helem (by simp [XNode.isElem])
        | elem t attrs cs =>
            obtain ⟨⟨htname, hattrs⟩, hcs⟩ :
                (wfName t = true
                  ∧ ∀ (a b : String), (a, b) ∈ attrs → wfName a = true ∧ wfAttrVal b = true)
                  ∧ wfNode.wfList cs = true := by
              simpa [wfNode] using hwf
            obtain ⟨htne, htall⟩ : t.data ≠ [] ∧ t.data.all isNameChar = true := by
              simpa [wfName] using htname
            have htmem := List.all_eq_true.mp htall
            have hattrs' : ∀ kv ∈ attrs, wfName kv.1 = true ∧ wfAttrVal kv.2 = true :=
              fun kv hkv => hattrs kv.1 kv.2 hkv
            rw [msize] at hsz
            cases cs with
            | nil =>
                have hser : serNode (.elem t attrs []) ++ rest
                    = '<' :: (t.data ++ (serAttrs attrs ++ ('/' :: '>' :: rest))) := by
                  rw [serNode]
                  simp
                have hspan := takeWhile_append_all isNameChar t.data
                  (serAttrs attrs ++ ('/' :: '>' :: rest)) htmem
                  (serAttrs_head_not_name attrs _ (by
                    intro c hc
                    simp only [List.head?_cons, Option.some.injEq] at hc
                    rw [← hc]
                    decide))
                rw [hser, parseElem, hspan.1, hspan.2, if_neg htne,
                  parseAttrs_ser attrs f ('/' :: '>' :: rest)
                    (by simp only [msize.msizeList] at hsz; omega) hattrs' (by simp)]
                simp only [optBindSome]
                rw [if_pos (by simp [List.take])]
                rfl
            | cons c0 cs0 =>
                have hser : serNode (.elem t attrs (c0 :: cs0)) ++ rest
                    = '<' :: (t.data ++ (serAttrs attrs ++ ('>' ::
                        (serNode.serList (c0 :: cs0)
                          ++ ('<' :: '/' :: (t.data ++ '>' :: rest)))))) := by
                  rw [serNode]
                  simp
                have hspan := takeWhile_append_all isNameChar t.data
                  (serAttrs attrs ++ ('>' :: (serNode.serList (c0 :: cs0)
                    ++ ('<' :: '/' :: (t.data ++ '>' :: rest))))) htmem
                  (serAttrs_head_not_name attrs _ (by
                    intro c hc
                    simp only [List.head?_cons, Option.some.injEq] at hc
                    rw [← hc]
                    decide))
                have hcontent := ihC (c0 :: cs0) (t.data ++ '>' :: rest) hcs
                  (by omega)
                have hspan2 := takeWhile_append_all isNameChar t.data ('>' :: rest)
                  htmem (by
                    intro c hc
                    simp only [List.head?_cons, Option.some.injEq] at hc
                    rw [← hc]
                    decide)
                rw [hser, parseElem, hspan.1, hspan.2, if_neg htne,
                  parseAttrs_ser attrs f _
                    (by have := msize_pos c0; simp only [msize.msizeList] at hsz; omega)
                    hattrs' (by simp)]
                simp only [optBindSome]
                rw [if_neg (by simp [List.take]), if_pos (by simp), List.drop_one,
                  show ('>' :: (serNode.serList (c0 :: cs0)
                    ++ ('<' :: '/' :: (t.data ++ '>' :: rest)))).tail
                    = serNode.serList (c0 :: cs0)
                      ++ ('<' :: '/' :: (t.data ++ '>' :: rest)) from rfl,
                  hcontent]
                simp only [optBindSome]
                rw [if_pos (by simp [List.take]),
                  show (('<' :: '/' :: (t.data ++ '>' :: rest)).drop 2)
                    = t.data ++ '>' :: rest from rfl,
                  hspan2.1, hspan2.2, if_pos ⟨rfl, rfl⟩]
                rfl
      · intro cs r' hwfl hsz
        cases cs with
        | nil =>
            rw [show serNode.serList [] ++ ('<' :: '/' :: r') = '<' :: '/' :: r' from by
              rw [serNode.serList]; rfl]
            rw [parseContent, if_pos rfl]
            simp
        | cons c0 cs0 =>
            obtain ⟨⟨hwf0, hntt⟩, hwfl0⟩ :
                (wfNode c0 = true ∧ noTextText c0 cs0 = true)
                  ∧ wfNode.wfList cs0 = true := by
              simpa [wfNode.wfList] using hwfl
            cases c0 with
            | text s =>
                obtain ⟨hsne, hscr0⟩ : s.data ≠ [] ∧ ∀ c ∈ s.data, ¬ c = '\r' := by
                  simpa [wfNode] using hwf0
                have hscr : ∀ c ∈ s.data, (c == '\r') = false :=
                  fun c hc => beq_eq_false_iff_ne.mpr (hscr0 c hc)
                obtain ⟨sc, sr, hsd⟩ : ∃ sc sr, s.data = sc :: sr := by
                  cases hd : s.data with
                  | nil => exact absurd hd hsne
                  | cons sc sr => exact ⟨sc, sr, rfl⟩
                have hY : (serNode.serList cs0 ++ ('<' :: '/' :: r')).head? = some '<' := by
                  cases cs0 with
                  | nil => rw [serNode.serList]; rfl
                  | cons c2 cs2 =>
                      cases c2 with
                      | text s2 =>
                          exact absurd hntt (by simp [noTextText, XNode.isText])
                      | elem t2 a2 cc2 =>
                          rw [serNode.serList, serNode]
                          rfl
                have hstep : serNode.serList (XNode.text s :: cs0) ++ ('<' :: '/' :: r')
                    = escape s.data ++ (serNode.serList cs0 ++ ('<' :: '/' :: r')) := by
                  rw [serNode.serList, serNode]
                  simp
                obtain ⟨r1, hr1⟩ :=
                  escape_cons_head sc sr (serNode.serList cs0 ++ ('<' :: '/' :: r'))
                rw [hstep, hsd, hr1, parseContent, if_neg (headEsc_ne_lt sc), ← hr1,
                  ← hsd]
                rw [parseTextAux_escape s.data hscr
                  (serNode.serList cs0 ++ ('<' :: '/' :: r')) (Or.inr hY) _
                  (by
                    have h1 := escape_length_ge s.data
                    simp only [List.length_append]
                    omega)]
                simp only [optBindSome]
                rw [ihC cs0 r' hwfl0
                  (by simp only [msize.msizeList, msize] at hsz; omega)]
                rfl
            | elem t2 a2 cc2 =>
                obtain ⟨⟨ht2name, _⟩, _⟩ :
                    (wfName t2 = true
                      ∧ ∀ (a b : String), (a, b) ∈ a2 →
                          wfName a = true ∧ wfAttrVal b = true)
                      ∧ wfNode.wfList cc2 = true := by
                  simpa [wfNode] using hwf0
                obtain ⟨ht2ne, ht2all⟩ : t2.data ≠ [] ∧ t2.data.all isNameChar = true := by
                  simpa [wfName] using ht2name
                obtain ⟨c2, r2, ht2d⟩ : ∃ c2 r2, t2.data = c2 :: r2 := by
                  cases hd : t2.data with
                  | nil => exact absurd hd ht2ne
                  | cons c2 r2 => exact ⟨c2, r2, rfl⟩
                have hc2name : isNameChar c2 = true :=
                  List.all_eq_true.mp ht2all c2 (by rw [ht2d]; exact List.mem_cons_self _ _)
                obtain ⟨R, hR, hRhead⟩ :
                    ∃ R, serNode (XNode.elem t2 a2 cc2) = '<' :: R ∧ R.head? = some c2 := by
                  refine ⟨t2.data ++ (serAttrs a2 ++
                    (if cc2.isEmpty then ['/', '>']
                     else '>' :: serNode.serList cc2 ++ '<' :: '/' :: t2.data ++ ['>'])),
                    ?_, ?_⟩
                  · rw [serNode]
                    simp
                  · rw [ht2d]
                    rfl
                obtain ⟨R0, hR0⟩ : ∃ R0, R = c2 :: R0 := by
                  cases R with
                  | nil => exact absurd hRhead (by simp)
                  | cons x xs =>
                      refine ⟨xs, ?_⟩
                      simp only [List.head?_cons, Option.some.injEq] at hRhead
                      rw [hRhead]
                have hstep : serNode.serList (XNode.elem t2 a2 cc2 :: cs0) ++ ('<' :: '/' :: r')
                    = '<' :: c2 :: (R0 ++ (serNode.serList cs0 ++ ('<' :: '/' :: r'))) := by
                  rw [serNode.serList, hR, hR0]
                  simp
                rw [hstep, parseContent, if_pos rfl,
                  if_neg (by
                    simp only [List.head?_cons, Option.some.injEq]
                    intro hcontra
                    rw [hcontra] at hc2name
                    exact absurd hc2name (by decide))]
                rw [show ('<' :: c2 :: (R0 ++ (serNode.serList cs0 ++ ('<' :: '/' :: r'))))
                    = serNode (XNode.elem t2 a2 cc2)
                        ++ (serNode.serList cs0 ++ ('<' :: '/' :: r')) from by
                  rw [hR, hR0]
                  rfl]
                rw [ihE (XNode.elem t2 a2 cc2) _ hwf0 rfl
                  (by simp only [msize.msizeList] at hsz; omega)]
                simp only [optBindSome]
                rw [ihC cs0 r' hwfl0
                  (by
                    have := msize_pos (XNode.elem t2 a2 cc2)
                    simp only [msize.msizeList] at hsz
                    omega)]
                rfl

lemma serAttrs_length_ge : ∀ attrs : List (String × String),
    attrs.length ≤ (serAttrs attrs).length
  | [] => le_rfl
  | (k, v) :: r => by
      rw [serAttrs]
      simp only [List.length_cons, List.length_append]
      have := serAttrs_length_ge r
      omega

lemma msize_le_aux : ∀ fuel : Nat,
    (∀ e, msize e ≤ fuel → wfNode e = true → msize e ≤ (serNode e).length) ∧
    (∀ cs, msize.msizeList cs ≤ fuel → wfNode.wfList cs = true →
      msize.msizeList cs ≤ (serNode.serList cs).length) := by
  intro fuel
  induction fuel with
  | zero =>
      constructor
      · intro e hsz _
        have := msize_pos e
        omega
      · intro cs hsz _
        cases cs with
        | nil => simp [msize.msizeList, serNode.serList]
        | cons c cs0 =>
            have := msize_pos c
            rw [msize.msizeList] at hsz
            omega
  | succ f ih =>
      have hnode : ∀ e, msize e ≤ f + 1 → wfNode e = true →
          msize e ≤ (serNode e).length := by
        intro e hsz hwf
        cases e with
        | text s =>
            obtain ⟨hsne, _⟩ : s.data ≠ [] ∧ ∀ c ∈ s.data, ¬ c = '\r' := by
              simpa [wfNode] using hwf
            have h1 := escape_length_ge s.data
            have h2 : 1 ≤ s.data.length := by
              cases hd : s.data with
              | nil => exact absurd hd hsne
              | cons a l => simp
            rw [msize, serNode]
            omega
        | elem t a cs =>
            obtain ⟨⟨htname, _⟩, hcs⟩ :
                (wfName t = true
                  ∧ ∀ (x y : String), (x, y) ∈ a →
                      wfName x = true ∧ wfAttrVal y = true)
                  ∧ wfNode.wfList cs = true := by
              simpa [wfNode] using hwf
            obtain ⟨htne, _⟩ : t.data ≠ [] ∧ t.data.all isNameChar = true := by
              simpa [wfName] using htname
            have htlen : 1 ≤ t.data.length := by
              cases hd : t.data with
              | nil => exact absurd hd htne
              | cons a l => simp
            have hAttrs := serAttrs_length_ge a
            have hlist := ih.2 cs
              (by rw [msize] at hsz; omega) hcs
            cases cs with
            | nil =>
                rw [msize, serNode,
                  if_pos (show List.isEmpty [] = true from rfl)]
                simp only [msize.msizeList, List.length_cons, List.length_append]
                omega
            | cons c1 cs1 =>
                rw [msize, serNode, if_neg (by simp)]
                simp only [List.length_cons, List.length_append]
                rw [msize] at hsz
                omega
      refine ⟨hnode, ?_⟩
      intro cs hsz hwfl
      cases cs with
      | nil => simp [msize.msizeList, serNode.serList]
      | cons c cs0 =>
          obtain ⟨⟨hwfc, _⟩, hwfl0⟩ :
              (wfNode c = true ∧ noTextText c cs0 = true)
                ∧ wfNode.wfList cs0 = true := by
            simpa [wfNode.wfList] using hwfl
          have hc := hnode c
            (by rw [msize.msizeList] at hsz; omega) hwfc
          have hcs0 := ih.2 cs0
            (by
              rw [msize.msizeList] at hsz
              have := msize_pos c
              omega) hwfl0
          rw [msize.msizeList, serNode.serList]
          simp only [List.length_append]
          omega

lemma msize_le (e : XNode) (hwf : wfNode e = true) :
    msize e ≤ (serNode e).length :=
  (msize_le_aux (msize e)).1 e le_rfl hwf

lemma skipHeader_writeDoc (root : XNode) :
    skipHeader (writeDoc root) = some (serNode root) := rfl

/-- C1, amended: the round trip of the claim holds on the well-formed
fragment, not universally.  If a document text `X` loads successfully into
the tree `root` and `root` is well-formed — element/attribute names are XML
names, text nodes are non-empty, never adjacent and free of carriage
returns, attribute values free of tab, newline and carriage return: exactly
the data `minidom`'s writer re-emits raw but a reload would normalize —
then writing the tree with `Parser.write` (`doc.toxml()`) and loading the
result again succeeds and yields the very same tree, hence the same
study-label list and, for every study label, the same case record set as
the original load.  The unrestricted claim is false: such characters are
reachable from valid input through numeric character references, and on
them the reloaded record set differs. -/
theorem loadWriteRoundTrip (fname fname2 : String) (X : List Char) (root : XNode)
    (hwf : wfNode root = true) (hload : loadChars fname X = Except.ok root) :
    loadChars fname2 (writeDoc root) = Except.ok root
      ∧ (loadChars fname2 (writeDoc root)).bind getStudiesLabel
          = (loadChars fname X).bind getStudiesLabel
      ∧ ∀ l : String,
          (loadChars fname2 (writeDoc root)).bind
              (fun r => getStatusOnCasesKeywords r l)
            = (loadChars fname X).bind
              (fun r => getStatusOnCasesKeywords r l) := by
  have hname : root.nodeName = "studymanager" := by
    rw [loadChars] at hload
    cases hp : parseDocChars X with
    | none =>
        rw [hp] at hload
        exact absurd hload (by simp)
    | some r0 =>
        rw [hp] at hload
        simp only [loadTree] at hload
        by_cases hn : r0.nodeName ≠ "studymanager"
        · rw [if_pos hn] at hload
          exact absurd hload (by simp)
        · rw [if_neg hn] at hload
          have hr0 : r0 = root := by simpa using hload
          push_neg at hn
          rw [← hr0]
          exact hn
  have helem : root.isElem = true := by
    cases root with
    | text s => exact absurd hname (by simp [XNode.nodeName])
    | elem t a cs => rfl
  have hdrop : (serNode root).dropWhile xmlSpace = serNode root := by
    cases root with
    | text s => exact absurd helem (by simp [XNode.isElem])
    | elem t a cs =>
        rw [serNode]
        simp only [List.cons_append, List.dropWhile_cons]
        simp [xmlSpace]
  have hparse : parseDocChars (writeDoc root) = some root := by
    rw [parseDocChars, skipHeader_writeDoc, optBindSome, hdrop]
    have hps := (parse_ser ((serNode root).length + 1)).1 root [] hwf helem
      (by have := msize_le root hwf; omega)
    rw [List.append_nil] at hps
    rw [hps, optBindSome]
    simp
  have hload2 : loadChars fname2 (writeDoc root) = Except.ok root := by
    simp only [loadChars, hparse]
    simp only [loadTree, hname]
    simp
  refine ⟨hload2, ?_, ?_⟩
  · rw [hload2, hload]
  · intro l
    rw [hload2, hload]

set_option maxRecDepth 100000 in
theorem loadWriteRoundTrip_witness :
    loadChars "b.xml" (writeDoc wDoc) = Except.ok wDoc
      ∧ (loadChars "b.xml" (writeDoc wDoc)).bind getStudiesLabel
          = (loadChars "a.xml" (writeDoc wDoc)).bind getStudiesLabel
      ∧ ∀ l : String,
          (loadChars "b.xml" (writeDoc wDoc)).bind
              (fun r => getStatusOnCasesKeywords r l)
            = (loadChars "a.xml" (writeDoc wDoc)).bind
              (fun r => getStatusOnCasesKeywords r l) :=
  loadWriteRoundTrip "a.xml" "b.xml" (writeDoc wDoc) wDoc (by decide) (by rfl)

/-- A valid input document whose study label carries a newline via the
numeric character reference `&#10;`: attribute-value normalization does not
apply to characters from references, so the label loads as `"A\nB"`. -/
def cexX : List Char :=
  ("<?xml version=\"1.0\" ?><studymanager>"
    ++ "<study label=\"A&#10;B\" status=\"on\"/></studymanager>").data

def cexRoot1 : XNode :=
  .elem "studymanager" []
    [.elem "study" [("label", "A\nB"), ("status", "on")] []]

def cexRoot2 : XNode :=
  .elem "studymanager" []
    [.elem "study" [("label", "A B"), ("status", "on")] []]

set_option maxRecDepth 100000 in
/-- Counterexample to the universal C1 round trip: `cexX` is a valid input
document and loads fine, but its study label `"A\nB"` (from `&#10;`) is
written back by `_write_data` as a raw newline, which the reload normalizes
to a space — so `load(write(load(cexX)))` succeeds with a different tree
and a different record set: study labels `["A\nB"]` versus `["A B"]`. -/
theorem loadWriteRoundTrip_charref_counterexample :
    loadChars "a.xml" cexX = Except.ok cexRoot1
      ∧ loadChars "b.xml" (writeDoc cexRoot1) = Except.ok cexRoot2
      ∧ getStudiesLabel cexRoot1 = Except.ok ["A\nB"]
      ∧ getStudiesLabel cexRoot2 = Except.ok ["A B"]
      ∧ ("A\nB" : String) ≠ "A B" :=
  ⟨rfl, rfl, rfl, rfl, by decide⟩
